import Mathlib

/-!
Verification development for the storage core of rustdb
(src/storage/{row,page,heap,btree}.rs), a disk-backed relational
database storage engine: row codec, 8192-byte slotted pages, heap
files (flat arrays of pages) and a B+tree index from i64 keys to
row references.

Shallow embedding conventions:
* a page's 8192 bytes are a total function Nat -> Nat (bytes beyond
  offset 8191 are never read or written by checked accesses);
* Rust slice accesses data[a..b] are modelled by checked reads and
  writes returning Option: none models the Rust panic
  (index out of bounds), exactly when b > 8192;
* accesses at constant, statically in-bounds offsets (the 32-byte
  page header and the fixed leaf/internal prefix fields) are total,
  since the corresponding Rust code cannot panic;
* machine integers are Nat (u16/u32/u64/usize) or Int (i64); the
  narrowing cast "as u32" and the little-endian byte encoders
  truncate via % 256 per byte, as the Rust casts do;
* Rust Result errors (anyhow) are the Err constructors of DbErr;
  a Rust panic is the distinguished DbErr.panicked; the heap file is
  a list of pages (every file write in the source is a whole page at
  a page-aligned offset, and the file length is always a multiple of
  PAGE_SIZE, so no byte-level file model is needed).
-/

/-- Little-endian value of a byte list: to_le_bytes/from_le_bytes composition.  -/
def fromLE : List Nat → Nat
  | [] => 0
  | b :: bs => b % 256 + 256 * fromLE bs

/-- The `w` little-endian bytes of `v`, i.e. `v.to_le_bytes()` for a
`w`-byte integer; narrowing (e.g. `as u32` = `toLE 4`) truncates. -/
def toLE : Nat → Nat → List Nat
  | 0, _ => []
  | w + 1, v => v % 256 :: toLE w (v / 256)

/-- Two's-complement representative of an `i64` as a Nat in `[0, 2^64)`. -/
def int64ToNat (k : Int) : Nat := (k % (2 ^ 64 : Nat)).toNat

/-- Decode a Nat in `[0, 2^64)` as an `i64` (two's complement). -/
def natToInt64 (n : Nat) : Int := if n < 2 ^ 63 then (n : Int) else (n : Int) - 2 ^ 64

/-- `PAGE_SIZE` from src/storage/page.rs. -/
def PAGE_SIZE : Nat := 8192

/-- `PAGE_MAGIC` from src/storage/page.rs. -/
def PAGE_MAGIC : Nat := 0x52534442

/-- `HEADER_LEN` from src/storage/page.rs. -/
def HEADER_LEN : Nat := 32

/-- `SLOT_SIZE` from src/storage/page.rs (offset u16, length u16). -/
def SLOT_SIZE : Nat := 4

/-- `ROW_HEADER_LEN` from src/storage/row.rs: txn_id (8) + tombstone (1). -/
def ROW_HEADER_LEN : Nat := 9

/-- A page: the 8192-byte backing buffer `data: [u8; PAGE_SIZE]`. -/
structure Page where
  data : Nat → Nat

/-- Unchecked byte-range store (the write itself, after the bound check). -/
def Page.setB (p : Page) (off : Nat) (bs : List Nat) : Page :=
  ⟨fun o => if off ≤ o ∧ o < off + bs.length then bs.getD (o - off) 0 else p.data o⟩

/-- Checked byte-range store: `self.data[off..off+bs.len()].copy_from_slice(bs)`.
none models the Rust out-of-bounds panic. -/
def Page.wr (p : Page) (off : Nat) (bs : List Nat) : Option Page :=
  if off + bs.length ≤ PAGE_SIZE then some (p.setB off bs) else none

/-- Unchecked byte-range load (used only at statically in-bounds offsets). -/
def Page.rdU (p : Page) (off len : Nat) : List Nat :=
  (List.range len).map fun j => p.data (off + j)

/-- Checked byte-range load: `self.data[off..off+len]`; none models the panic. -/
def Page.rd (p : Page) (off len : Nat) : Option (List Nat) :=
  if off + len ≤ PAGE_SIZE then some (p.rdU off len) else none

/-- `Page::magic` (header bytes 0..4, u32 LE). -/
def Page.magic (p : Page) : Nat := fromLE (p.rdU 0 4)

/-- `Page::page_id` (header bytes 4..8, u32 LE). -/
def Page.page_id (p : Page) : Nat := fromLE (p.rdU 4 4)

/-- `Page::set_page_id`. -/
def Page.set_page_id (p : Page) (v : Nat) : Page := p.setB 4 (toLE 4 v)

/-- Page flags (header bytes 8..10, u16 LE): 0 = Heap, 1 = Leaf, 2 = Internal. -/
def Page.flags (p : Page) : Nat := fromLE (p.rdU 8 2)

/-- `Page::raw_n_slots` (header bytes 10..12, u16 LE). -/
def Page.n_slots (p : Page) : Nat := fromLE (p.rdU 10 2)

/-- `Page::free_end` (header bytes 12..14, u16 LE). -/
def Page.free_end (p : Page) : Nat := fromLE (p.rdU 12 2)

/-- `Page::new(page_id, flags)`: zeroed buffer, then the header stores.
All five stores are at constant in-bounds offsets. -/
def Page.new (pid flags : Nat) : Page :=
  ((((Page.setB ⟨fun _ => 0⟩ 0 (toLE 4 PAGE_MAGIC)).setB 4 (toLE 4 pid)).setB 8
      (toLE 2 flags)).setB 10 (toLE 2 0)).setB 12 (toLE 2 PAGE_SIZE)

/-- `Page::slot_dir_end`. -/
def Page.slot_dir_end (p : Page) : Nat := HEADER_LEN + p.n_slots * SLOT_SIZE

/-- Wrapping usize subtraction (release-mode Rust semantics; debug builds
panic on the same inputs, so a wrapped result marks real misbehaviour). -/
def usizeSub (a b : Nat) : Nat := (a + 2 ^ 64 - b) % 2 ^ 64

/-- `Page::free_space`: `if start <= end { 0 } else { start - end - SLOT_SIZE }`.
The second subtraction is an unchecked usize subtraction in the source. -/
def Page.free_space (p : Page) : Nat :=
  let e := p.slot_dir_end
  let s := p.free_end
  if s ≤ e then 0 else usizeSub (s - e) SLOT_SIZE

/-- `Page::insert(row)`: result `some (p, some idx)` is success, `some (p, none)`
is the no-space return (page untouched), `none` is a panic (possible only on
pages with corrupt headers). -/
def Page.insert (p : Page) (row : List Nat) : Option (Page × Option Nat) :=
  let need := row.length + SLOT_SIZE
  if p.free_space < need then some (p, none)
  else
    let n := p.n_slots
    let new_free := usizeSub p.free_end row.length
    match p.wr new_free row with
    | none => none
    | some p1 =>
      let p2 := p1.setB 12 (toLE 2 new_free)
      let slot_pos := HEADER_LEN + n * SLOT_SIZE
      match p2.wr slot_pos (toLE 2 new_free) with
      | none => none
      | some p3 =>
        match p3.wr (slot_pos + 2) (toLE 2 row.length) with
        | none => none
        | some p4 => some (p4.setB 10 (toLE 2 (n + 1)), some n)

/-- `Page::get_slot(slot_id)`: outer none models the panic reading a slot
directory entry that lies outside the page; inner none is the Rust `None`. -/
def Page.get_slot (p : Page) (slot_id : Nat) : Option (Option (List Nat)) :=
  if slot_id ≥ p.n_slots then some none
  else
    let pos := HEADER_LEN + slot_id * SLOT_SIZE
    match p.rd pos 2, p.rd (pos + 2) 2 with
    | some offB, some lenB =>
      let offset := fromLE offB
      let len := fromLE lenB
      if offset + len > PAGE_SIZE then some none
      else some (some (p.rdU offset len))
    | _, _ => none

/-- Errors observable from the storage core.  The Err-constructors model the
anyhow errors of the source; `panicked` models a Rust panic (slice index out
of bounds / unchecked arithmetic), which is a distinct failure mode. -/
inductive DbErr where
  | panicked
  | duplicateKey (k : Int)
  | emptyTree
  | pageOutOfRange (id : Nat)
  | badMagic
  | invalidSlot (i : Nat)
  | rowTooShort
  | schemaMismatch
  | shortRow
  | badUtf8
  | truncatedField
deriving DecidableEq, Repr

/-- `Page::delete_slot(slot_id)`: tombstone byte (offset 8 within the row,
after the 8-byte txn_id) set to 1.  Checked reads/writes: `DbErr.panicked`
when a directory entry or the tombstone byte lies outside the page. -/
def Page.delete_slot (p : Page) (slot_id : Nat) : Except DbErr Page :=
  if slot_id ≥ p.n_slots then .error (.invalidSlot slot_id)
  else
    let pos := HEADER_LEN + slot_id * SLOT_SIZE
    match p.rd pos 2, p.rd (pos + 2) 2 with
    | some offB, some lenB =>
      let offset := fromLE offB
      let len := fromLE lenB
      if len < ROW_HEADER_LEN then .error .rowTooShort
      else
        match p.wr (offset + 8) [1] with
        | some p1 => .ok p1
        | none => .error .panicked
    | _, _ => .error .panicked

/-- A heap file: `num_pages` pages stored at offsets `i * PAGE_SIZE`.
Every write the source performs is one whole page at a page-aligned offset,
so the file content is the list of its pages. -/
structure HeapFile where
  pages : List Page

/-- `HeapFile::num_pages`. -/
def HeapFile.num_pages (h : HeapFile) : Nat := h.pages.length

/-- `HeapFile::create(path)`: truncated file, `num_pages = 0`. -/
def HeapFile.create : HeapFile := ⟨[]⟩

/-- `HeapFile::append_page(page)`: clones the caller's page, rewrites the
clone's page_id to the assigned id `num_pages`, writes it at the end of the
file and returns the id.  The caller's page is not touched. -/
def HeapFile.append_page (h : HeapFile) (page : Page) : HeapFile × Nat :=
  let id := h.num_pages
  (⟨h.pages ++ [page.set_page_id id]⟩, id)

/-- `HeapFile::read_page(page_id)`: PageOutOfRange when `page_id >= num_pages`,
BadMagic when the stored page's first four bytes are not PAGE_MAGIC. -/
def HeapFile.read_page (h : HeapFile) (page_id : Nat) : Except DbErr Page :=
  if hlt : page_id < h.pages.length then
    let p := h.pages.get ⟨page_id, hlt⟩
    if p.magic = PAGE_MAGIC then .ok p else .error .badMagic
  else .error (.pageOutOfRange page_id)

/-- Modelled from the spec: `HeapFile::write_page(id, page)` is called by the
B+tree (src/storage/btree.rs lines 212, 236, 279, 297, 308) but its definition
is not under src/.  Per the spec (section 4.3): overwrites the page at
`id * PAGE_SIZE`; `id < num_pages` is a caller contract.  `List.set` leaves
the list unchanged when `id` is out of range and never changes the length. -/
def HeapFile.write_page (h : HeapFile) (id : Nat) (page : Page) : HeapFile :=
  ⟨h.pages.set id page⟩

/-- `HeapFile::open` on a file produced by this model: the page count is
recovered as length / PAGE_SIZE, which is the number of stored pages (the
model file is whole pages by construction, so BadFileSize cannot occur). -/
def HeapFile.reopen (h : HeapFile) : HeapFile := ⟨h.pages⟩

/-- `Value` from src/storage/row.rs.  `text` carries the UTF-8 bytes of the
Rust String (a Rust String is always valid UTF-8; that invariant is stated
separately as `ValueWF`). -/
inductive Value where
  | int (n : Int)
  | text (s : List Nat)
  | bool (b : Bool)
deriving DecidableEq, Repr

/-- `ColumnType` from src/storage/row.rs. -/
inductive ColumnType where
  | int
  | text
  | bool
deriving DecidableEq, Repr

/-- UTF-8 validity DFA state step: `needed` pending continuation bytes and
the admissible range `[lo, hi)` for the next byte. -/
def utf8Aux : List Nat → Nat → Nat → Nat → Bool
  | [], needed, _, _ => needed = 0
  | b :: rest, 0, _, _ =>
    if b < 0x80 then utf8Aux rest 0 0x80 0xC0
    else if b < 0xC2 then false
    else if b < 0xE0 then utf8Aux rest 1 0x80 0xC0
    else if b < 0xF0 then
      utf8Aux rest 2 (if b = 0xE0 then 0xA0 else 0x80) (if b = 0xED then 0xA0 else 0xC0)
    else if b < 0xF5 then
      utf8Aux rest 3 (if b = 0xF0 then 0x90 else 0x80) (if b = 0xF4 then 0x90 else 0xC0)
    else false
  | b :: rest, needed + 1, lo, hi =>
    if lo ≤ b ∧ b < hi then utf8Aux rest needed 0x80 0xC0 else false

/-- UTF-8 validity exactly as `String::from_utf8` checks it (RFC 3629:
continuation bytes in range, no overlong forms, no surrogates, nothing
above U+10FFFF). -/
def isValidUtf8 (bs : List Nat) : Bool := utf8Aux bs 0 0x80 0xC0

/-- Invariants the Rust value types carry by construction: an `i64` is in
two's-complement range, a `String` is valid UTF-8 with byte values < 256,
a `bool` is anything. -/
def ValueWF : Value → Prop
  | .int n => -(2 ^ 63 : Int) ≤ n ∧ n < 2 ^ 63
  | .text s => (∀ b ∈ s, b < 256) ∧ isValidUtf8 s = true
  | .bool _ => True

instance : DecidablePred ValueWF := fun v => by
  cases v <;> simp only [ValueWF] <;> infer_instance

/-- `encode_value` from src/storage/row.rs.  TEXT length prefix is
`(b.len() as u32).to_le_bytes()`: `toLE 4` performs the same truncation. -/
def encode_value (ty : ColumnType) (v : Value) : Except DbErr (List Nat) :=
  match ty, v with
  | .int, .int n => .ok (toLE 8 (int64ToNat n))
  | .text, .text s => .ok (toLE 4 s.length ++ s)
  | .bool, .bool b => .ok [if b then 1 else 0]
  | _, _ => .error .schemaMismatch

/-- Body of `encode`: the per-column loop. -/
def encodeCols : List ColumnType → List Value → Except DbErr (List Nat)
  | [], [] => .ok []
  | ty :: tys, v :: vs =>
    match encode_value ty v, encodeCols tys vs with
    | .ok b, .ok rest => .ok (b ++ rest)
    | .error e, _ => .error e
    | _, .error e => .error e
  | _, _ => .error .schemaMismatch

/-- `encode(schema, values, txn_id, tombstone)` from src/storage/row.rs. -/
def encode (schema : List ColumnType) (values : List Value) (txn_id tombstone : Nat) :
    Except DbErr (List Nat) :=
  if schema.length = values.length then
    match encodeCols schema values with
    | .ok body => .ok (toLE 8 txn_id ++ [tombstone % 256] ++ body)
    | .error e => .error e
  else .error .schemaMismatch

/-- `Cursor::read_exact(k)`: the next `k` bytes and the rest, or the
end-of-buffer error (surfaced as TruncatedField by the codec). -/
def readExact (bs : List Nat) (k : Nat) : Except DbErr (List Nat × List Nat) :=
  if k ≤ bs.length then .ok (bs.take k, bs.drop k) else .error .truncatedField

/-- `decode_value` from src/storage/row.rs. -/
def decode_value (ty : ColumnType) (bs : List Nat) : Except DbErr (Value × List Nat) :=
  match ty with
  | .int =>
    match readExact bs 8 with
    | .ok (b, rest) => .ok (.int (natToInt64 (fromLE b)), rest)
    | .error e => .error e
  | .text =>
    match readExact bs 4 with
    | .ok (lenB, rest) =>
      match readExact rest (fromLE lenB) with
      | .ok (s, rest') =>
        if isValidUtf8 s then .ok (.text s, rest') else .error .badUtf8
      | .error e => .error e
    | .error e => .error e
  | .bool =>
    match readExact bs 1 with
    | .ok (b, rest) => .ok (.bool (decide (b.getD 0 0 ≠ 0)), rest)
    | .error e => .error e

/-- Body of `decode`: the per-column loop. -/
def decodeCols : List ColumnType → List Nat → Except DbErr (List Value × List Nat)
  | [], bs => .ok ([], bs)
  | ty :: tys, bs =>
    match decode_value ty bs with
    | .ok (v, rest) =>
      match decodeCols tys rest with
      | .ok (vs, rest') => .ok (v :: vs, rest')
      | .error e => .error e
    | .error e => .error e

/-- `decode(schema, bytes)` from src/storage/row.rs: returns
`(txn_id, tombstone, values)`. -/
def decode (schema : List ColumnType) (bs : List Nat) :
    Except DbErr (Nat × Nat × List Value) :=
  if bs.length < ROW_HEADER_LEN then .error .shortRow
  else
    match readExact bs 8 with
    | .ok (txnB, rest) =>
      match readExact rest 1 with
      | .ok (tombB, rest') =>
        match decodeCols schema rest' with
        | .ok (vs, _) => .ok (fromLE txnB, tombB.getD 0 0, vs)
        | .error e => .error e
      | .error e => .error e
    | .error e => .error e

/-- `RowRef` from src/storage/btree.rs: `page_id: u32`, `slot: u16`. -/
structure RowRef where
  page_id : Nat
  slot : Nat
deriving DecidableEq, Repr

/-- `BTREE_BODY_START` from src/storage/btree.rs. -/
def BTREE_BODY_START : Nat := 32

/-- `LEAF_ENTRY_SIZE`: key (8) + page_id (4) + slot (2). -/
def LEAF_ENTRY_SIZE : Nat := 14

/-- `INTERNAL_KEY_SIZE`: child (4) + key (8). -/
def INTERNAL_KEY_SIZE : Nat := 12

/-- `leaf_max_entries()` from src/storage/btree.rs. -/
def leaf_max_entries : Nat := (PAGE_SIZE - BTREE_BODY_START - 4 - 2) / LEAF_ENTRY_SIZE

/-- `internal_max_keys()` from src/storage/btree.rs. -/
def internal_max_keys : Nat := (PAGE_SIZE - BTREE_BODY_START - 2 - 4) / INTERNAL_KEY_SIZE

/-- `BTree` owns its index heap file; the root is always page 0. -/
structure BTree where
  index_heap : HeapFile

/-- `BTree::num_pages`. -/
def BTree.num_pages (t : BTree) : Nat := t.index_heap.num_pages

/-- `BTree::leaf_set_next` (body bytes 32..36, constant offset). -/
def leaf_set_next (page : Page) (next : Nat) : Page :=
  page.setB BTREE_BODY_START (toLE 4 next)

/-- `BTree::leaf_next`. -/
def leaf_next (page : Page) : Nat := fromLE (page.rdU BTREE_BODY_START 4)

/-- `BTree::leaf_set_num_entries` (body bytes 36..38, constant offset). -/
def leaf_set_num_entries (page : Page) (n : Nat) : Page :=
  page.setB (BTREE_BODY_START + 4) (toLE 2 n)

/-- `BTree::leaf_num_entries`. -/
def leaf_num_entries (page : Page) : Nat := fromLE (page.rdU (BTREE_BODY_START + 4) 2)

/-- `BTree::leaf_entry_offset`. -/
def leaf_entry_offset (idx : Nat) : Nat := BTREE_BODY_START + 6 + idx * LEAF_ENTRY_SIZE

/-- `BTree::leaf_get_key` (checked slice read at a computed offset). -/
def leaf_get_key (page : Page) (idx : Nat) : Option Int :=
  (page.rd (leaf_entry_offset idx) 8).map fun bs => natToInt64 (fromLE bs)

/-- `BTree::leaf_get_ref`. -/
def leaf_get_ref (page : Page) (idx : Nat) : Option RowRef :=
  match page.rd (leaf_entry_offset idx + 8) 4, page.rd (leaf_entry_offset idx + 12) 2 with
  | some pidB, some slotB => some ⟨fromLE pidB, fromLE slotB⟩
  | _, _ => none

/-- `BTree::leaf_set_entry`: three checked slice writes. -/
def leaf_set_entry (page : Page) (idx : Nat) (key : Int) (r : RowRef) : Option Page :=
  match page.wr (leaf_entry_offset idx) (toLE 8 (int64ToNat key)) with
  | none => none
  | some p1 =>
    match p1.wr (leaf_entry_offset idx + 8) (toLE 4 r.page_id) with
    | none => none
    | some p2 => p2.wr (leaf_entry_offset idx + 12) (toLE 2 r.slot)

/-- The shift loop of `BTree::leaf_insert_at`: `for i in (idx..n).rev()`
moves entry `i` to `i + 1`; the countdown argument is `n - idx`, so the
first iteration handles `i = n - 1` exactly as the Rust loop does. -/
def leaf_shift (page : Page) (idx : Nat) : Nat → Option Page
  | 0 => some page
  | c + 1 =>
    match leaf_get_key page (idx + c), leaf_get_ref page (idx + c) with
    | some k, some r =>
      match leaf_set_entry page (idx + c + 1) k r with
      | some p1 => leaf_shift p1 idx c
      | none => none
    | _, _ => none

/-- `BTree::leaf_insert_at`. -/
def leaf_insert_at (page : Page) (idx : Nat) (key : Int) (r : RowRef) : Option Page :=
  let n := leaf_num_entries page
  match leaf_shift page idx (n - idx) with
  | none => none
  | some p1 =>
    match leaf_set_entry p1 idx key r with
    | none => none
    | some p2 => some (leaf_set_num_entries p2 (n + 1))

/-- `BTree::internal_set_num_keys` (body bytes 32..34, constant offset). -/
def internal_set_num_keys (page : Page) (n : Nat) : Page :=
  page.setB BTREE_BODY_START (toLE 2 n)

/-- `BTree::internal_num_keys`. -/
def internal_num_keys (page : Page) : Nat := fromLE (page.rdU BTREE_BODY_START 2)

/-- `BTree::internal_child_offset`. -/
def internal_child_offset (idx : Nat) : Nat := BTREE_BODY_START + 2 + idx * (4 + 8)

/-- `BTree::internal_get_child`. -/
def internal_get_child (page : Page) (idx : Nat) : Option Nat :=
  (page.rd (internal_child_offset idx) 4).map fromLE

/-- `BTree::internal_get_key`: the i64 at `internal_child_offset idx + 4`.
For `idx = 0` these are page bytes 38..46, the key the routing loops read
first when descending an internal node. -/
def internal_get_key (page : Page) (idx : Nat) : Option Int :=
  (page.rd (internal_child_offset idx + 4) 8).map fun bs => natToInt64 (fromLE bs)

/-- `BTree::internal_set_child_key`. -/
def internal_set_child_key (page : Page) (idx child : Nat) (key : Int) : Option Page :=
  match page.wr (internal_child_offset idx) (toLE 4 child) with
  | none => none
  | some p1 => p1.wr (internal_child_offset idx + 4) (toLE 8 (int64ToNat key))

/-- `BTree::internal_set_last_child`. -/
def internal_set_last_child (page : Page) (n child : Nat) : Option Page :=
  page.wr (internal_child_offset n) (toLE 4 child)

/-- The routing loop shared verbatim by `get_from` and `insert_into`:
`child_idx = 0; for i in 0..n { if key < key_i break; child_idx = i + 1 }`.
Arguments: countdown, current `i`, current `child_idx`. -/
def route_child_idx (page : Page) (key : Int) : Nat → Nat → Nat → Except DbErr Nat
  | 0, _, acc => .ok acc
  | rem + 1, i, acc =>
    match internal_get_key page i with
    | none => .error .panicked
    | some k => if key < k then .ok acc else route_child_idx page key rem (i + 1) (i + 1)

/-- The leaf scan of `get_from`: first equal key returns its ref, a larger
key returns None early. -/
def leaf_scan_get (page : Page) (key : Int) : Nat → Nat → Except DbErr (Option RowRef)
  | 0, _ => .ok none
  | rem + 1, i =>
    match leaf_get_key page i with
    | none => .error .panicked
    | some k =>
      if k = key then
        match leaf_get_ref page i with
        | some r => .ok (some r)
        | none => .error .panicked
      else if k > key then .ok none
      else leaf_scan_get page key rem (i + 1)

/-- `BTree::get_from`.  The fuel argument models the unbounded Rust
recursion: with fuel `num_pages + 1` a descent that exhausts it must have
visited some page twice with identical arguments and state, i.e. the Rust
code loops forever (modelled as `panicked`). -/
def BTree.get_from (t : BTree) : Nat → Nat → Int → Except DbErr (Option RowRef)
  | 0, _, _ => .error .panicked
  | fuel + 1, page_id, key =>
    match t.index_heap.read_page page_id with
    | .error e => .error e
    | .ok page =>
      if page.flags = 1 then leaf_scan_get page key (leaf_num_entries page) 0
      else
        match route_child_idx page key (internal_num_keys page) 0 0 with
        | .error e => .error e
        | .ok child_idx =>
          match internal_get_child page child_idx with
          | none => .error .panicked
          | some child => t.get_from fuel child key

/-- `BTree::get`. -/
def BTree.get (t : BTree) (key : Int) : Except DbErr (Option RowRef) :=
  t.get_from (t.num_pages + 1) 0 key

/-- The leaf scan of `insert_into`: duplicate key is an error, the first
larger key gives the insertion index, otherwise the index is `n` (the
default, third accumulator). -/
def leaf_find_idx (page : Page) (key : Int) : Nat → Nat → Nat → Except DbErr Nat
  | 0, _, dflt => .ok dflt
  | rem + 1, i, dflt =>
    match leaf_get_key page i with
    | none => .error .panicked
    | some k =>
      if k = key then .error (.duplicateKey key)
      else if k > key then .ok i
      else leaf_find_idx page key rem (i + 1) dflt

/-- The copy loop of `split_leaf`: entry `mid + i` of `src` to entry `i`
of `dst`, for `i` in `0..(n - mid)`. -/
def leaf_copy (src : Page) (mid : Nat) : Page → Nat → Nat → Option Page
  | dst, _, 0 => some dst
  | dst, i, c + 1 =>
    match leaf_get_key src (mid + i), leaf_get_ref src (mid + i) with
    | some k, some r =>
      match leaf_set_entry dst i k r with
      | some d => leaf_copy src mid d (i + 1) c
      | none => none
    | _, _ => none

/-- `BTree::split_leaf`. -/
def BTree.split_leaf (t : BTree) (page_id : Nat) (page : Page) :
    BTree × Except DbErr (Int × Nat) :=
  let n := leaf_num_entries page
  let mid := n / 2
  match leaf_get_key page mid with
  | none => (t, .error .panicked)
  | some split_key =>
    let new0 := leaf_set_num_entries (leaf_set_next (Page.new 0 1) (leaf_next page)) (n - mid)
    match leaf_copy page mid new0 0 (n - mid) with
    | none => (t, .error .panicked)
    | some new_page =>
      let p1 := leaf_set_next (leaf_set_num_entries page mid) t.index_heap.num_pages
      let (h1, new_id) := t.index_heap.append_page new_page
      (⟨h1.write_page page_id p1⟩, .ok (split_key, new_id))

/-- The copy loop of `split_internal`: child `mid + 2 + i` and key
`mid + 1 + i` of `src` into position `i + 1` of `dst`. -/
def internal_copy (src : Page) (mid : Nat) : Page → Nat → Nat → Option Page
  | dst, _, 0 => some dst
  | dst, i, c + 1 =>
    match internal_get_child src (mid + 2 + i), internal_get_key src (mid + 1 + i) with
    | some ch, some k =>
      match internal_set_child_key dst (i + 1) ch k with
      | some d => internal_copy src mid d (i + 1) c
      | none => none
    | _, _ => none

/-- `BTree::split_internal`. -/
def BTree.split_internal (t : BTree) (page_id : Nat) (page : Page) :
    BTree × Except DbErr (Int × Nat) :=
  let n := internal_num_keys page
  let mid := n / 2
  match internal_get_key page mid with
  | none => (t, .error .panicked)
  | some promote_key =>
    let new0 := internal_set_num_keys (Page.new 0 2) (n - mid - 1)
    match internal_get_child page (mid + 1) with
    | none => (t, .error .panicked)
    | some first_child =>
      match internal_set_last_child new0 0 first_child with
      | none => (t, .error .panicked)
      | some new1 =>
        match internal_copy page mid new1 0 (n - mid - 1) with
        | none => (t, .error .panicked)
        | some new_page =>
          let (h1, right_id) := t.index_heap.append_page new_page
          let p1 := internal_set_num_keys page mid
          (⟨h1.write_page page_id p1⟩, .ok (promote_key, right_id))

/-- `BTree::split_root`: copy page 0 to a fresh page `left_id`, overwrite
page 0 with a one-key internal node. -/
def BTree.split_root (t : BTree) (promote_key : Int) (right_page_id : Nat) :
    BTree × Except DbErr Unit :=
  match t.index_heap.read_page 0 with
  | .error e => (t, .error e)
  | .ok left_page =>
    let (h1, left_id) := t.index_heap.append_page left_page
    let new0 := internal_set_num_keys (Page.new 0 2) 1
    match internal_set_last_child new0 0 left_id with
    | none => (⟨h1⟩, .error .panicked)
    | some new1 =>
      match internal_set_child_key new1 1 right_page_id promote_key with
      | none => (⟨h1⟩, .error .panicked)
      | some new_root => (⟨h1.write_page 0 new_root⟩, .ok ())

/-- The shift loop of `insert_internal_child`:
`for i in (after_child_idx + 1..n).rev()` copies (child i, key i) to
position `i + 1`; countdown is `n - (after_child_idx + 1)`. -/
def internal_shift (page : Page) (a : Nat) : Nat → Option Page
  | 0 => some page
  | c + 1 =>
    match internal_get_child page (a + 1 + c), internal_get_key page (a + 1 + c) with
    | some ch, some k =>
      match internal_set_child_key page (a + 1 + c + 1) ch k with
      | some p1 => internal_shift p1 a c
      | none => none
    | _, _ => none

/-- `BTree::insert_internal_child`. -/
def insert_internal_child (page : Page) (after_child_idx : Nat) (key : Int)
    (right_page_id : Nat) : Option Page :=
  let n := internal_num_keys page
  match internal_get_child page n with
  | none => none
  | some last_child =>
    match internal_shift page after_child_idx (n - (after_child_idx + 1)) with
    | none => none
    | some p1 =>
      match internal_set_child_key p1 (after_child_idx + 1) right_page_id key with
      | none => none
      | some p2 =>
        match internal_set_last_child p2 (n + 1) last_child with
        | none => none
        | some p3 => some (internal_set_num_keys p3 (n + 1))

/-- `BTree::insert_into`.  Returns the state as mutated so far together
with the Rust result, so error returns expose what the failed call left
behind.  Fuel as in `get_from`. -/
def BTree.insert_into (t : BTree) :
    Nat → Nat → Int → RowRef → BTree × Except DbErr (Option (Int × Nat))
  | 0, _, _, _ => (t, .error .panicked)
  | fuel + 1, page_id, key, value =>
    match t.index_heap.read_page page_id with
    | .error e => (t, .error e)
    | .ok page =>
      if page.flags = 1 then
        let n := leaf_num_entries page
        match leaf_find_idx page key n 0 n with
        | .error e => (t, .error e)
        | .ok idx =>
          match leaf_insert_at page idx key value with
          | none => (t, .error .panicked)
          | some page1 =>
            let t1 : BTree := ⟨t.index_heap.write_page page_id page1⟩
            if n + 1 > leaf_max_entries then
              match t1.split_leaf page_id page1 with
              | (t2, .ok sp) => (t2, .ok (some sp))
              | (t2, .error e) => (t2, .error e)
            else (t1, .ok none)
      else
        match route_child_idx page key (internal_num_keys page) 0 0 with
        | .error e => (t, .error e)
        | .ok child_idx =>
          match internal_get_child page child_idx with
          | none => (t, .error .panicked)
          | some child_id =>
            match t.insert_into fuel child_id key value with
            | (t1, .error e) => (t1, .error e)
            | (t1, .ok none) => (t1, .ok none)
            | (t1, .ok (some (split_key, split_page_id))) =>
              match insert_internal_child page child_idx split_key split_page_id with
              | none => (t1, .error .panicked)
              | some page1 =>
                if internal_num_keys page1 > internal_max_keys then
                  match t1.split_internal page_id page1 with
                  | (t2, .ok sp) => (t2, .ok (some sp))
                  | (t2, .error e) => (t2, .error e)
                else (⟨t1.index_heap.write_page page_id page1⟩, .ok none)

/-- `BTree::insert`. -/
def BTree.insert (t : BTree) (key : Int) (value : RowRef) : BTree × Except DbErr Unit :=
  if t.index_heap.num_pages = 0 then (t, .error .emptyTree)
  else
    match t.insert_into (t.num_pages + 1) 0 key value with
    | (t1, .error e) => (t1, .error e)
    | (t1, .ok none) => (t1, .ok ())
    | (t1, .ok (some (sk, sp))) => t1.split_root sk sp

/-- `BTree::alloc_empty_leaf`. -/
def alloc_empty_leaf (h : HeapFile) : HeapFile × Nat :=
  h.append_page (leaf_set_num_entries (leaf_set_next (Page.new 0 1) 0) 0)

/-- `BTree::create` (path handling elided: the model state is the file). -/
def BTree.create : BTree := ⟨(alloc_empty_leaf HeapFile.create).1⟩

/-- Keys `s, s+1, ..., s+c-1` paired with row refs `(i, i)`. -/
def ascOps : Nat → Nat → List (Int × RowRef)
  | _, 0 => []
  | s, c + 1 => ((s : Int), RowRef.mk s s) :: ascOps (s + 1) c

/-- Run a list of inserts, stopping at the first failure (as the driver in
the repository's own test does: it unwraps every insert). -/
def BTree.insertSeq (t : BTree) : List (Int × RowRef) → BTree × Except DbErr Unit
  | [] => (t, .ok ())
  | (k, v) :: rest =>
    match t.insert k v with
    | (t1, .ok _) => t1.insertSeq rest
    | (t1, .error e) => (t1, .error e)

/-- Header bytes of the root leaf produced by `BTree::create`: magic
`0x52534442` little-endian, page_id 0, flags Leaf (=1), n_slots 0,
free_end 8192 (= 0x2000, bytes 0 and 32), next_leaf 0. -/
def leafHeaderByte (o : Nat) : Nat :=
  if o = 0 then 0x42 else if o = 1 then 0x44 else if o = 2 then 0x53
  else if o = 3 then 0x52 else if o = 8 then 1 else if o = 13 then 32 else 0

/-- Byte `j` of leaf entry `(key = i, page_id = i, slot = i)`:
eight LE key bytes, four LE page_id bytes, two LE slot bytes. -/
def entryByte (i j : Nat) : Nat :=
  if j < 8 then i / 256 ^ j % 256
  else if j < 12 then i / 256 ^ (j - 8) % 256
  else i / 256 ^ (j - 12) % 256

/-- Closed form of the root leaf page after inserting keys `0..n` in
ascending order with row refs `(i, i)`. -/
def leafData (n : Nat) : Nat → Nat := fun o =>
  if o < 38 then
    if o = 36 then n % 256 else if o = 37 then n / 256 % 256 else leafHeaderByte o
  else if o < 38 + 14 * n then entryByte ((o - 38) / 14) ((o - 38) % 14)
  else 0

/-- The one-page tree whose root leaf is `leafData n`. -/
def leafState (n : Nat) : BTree := ⟨⟨[⟨leafData n⟩]⟩⟩

/-- Slot directory accessors mirroring the reads `delete_slot` performs:
the recorded offset of slot `i`. -/
def Page.slot_offset (p : Page) (i : Nat) : Nat :=
  fromLE (p.rdU (HEADER_LEN + i * SLOT_SIZE) 2)

/-- The recorded length of slot `i`. -/
def Page.slot_len (p : Page) (i : Nat) : Nat :=
  fromLE (p.rdU (HEADER_LEN + i * SLOT_SIZE + 2) 2)

/-- Kind conformance of values to a schema (the property the claims quantify
over: same length, each value's kind matching its column type). -/
def conforms : List ColumnType → List Value → Prop
  | [], [] => True
  | .int :: tys, .int _ :: vs => conforms tys vs
  | .text :: tys, .text _ :: vs => conforms tys vs
  | .bool :: tys, .bool _ :: vs => conforms tys vs
  | _, _ => False

instance : ∀ tys vs, Decidable (conforms tys vs)
  | [], [] => .isTrue trivial
  | .int :: tys, .int _ :: vs => instDecidableConforms tys vs
  | .text :: tys, .text _ :: vs => instDecidableConforms tys vs
  | .bool :: tys, .bool _ :: vs => instDecidableConforms tys vs
  | [], _ :: _ => .isFalse id
  | .int :: _, [] => .isFalse id
  | .text :: _, [] => .isFalse id
  | .bool :: _, [] => .isFalse id
  | .int :: _, .text _ :: _ => .isFalse id
  | .int :: _, .bool _ :: _ => .isFalse id
  | .text :: _, .int _ :: _ => .isFalse id
  | .text :: _, .bool _ :: _ => .isFalse id
  | .bool :: _, .int _ :: _ => .isFalse id
  | .bool :: _, .text _ :: _ => .isFalse id

/-- Text payloads short enough for the 4-byte length prefix (`as u32`)
not to truncate. -/
def textLenOK : Value → Prop
  | .text s => s.length < 2 ^ 32
  | _ => True

instance : DecidablePred textLenOK := fun v => by
  cases v <;> simp only [textLenOK] <;> infer_instance

/-- A text value of 2^32 bytes ('a' repeated): a legal Rust String whose
length the `as u32` cast truncates to zero. -/
def bigText : List Nat := List.replicate (2 ^ 32) 97

/-- Append a list of pages in order, collecting the assigned ids. -/
def HeapFile.append_all (h : HeapFile) : List Page → HeapFile × List Nat
  | [] => (h, [])
  | p :: ps =>
    let (h1, id) := h.append_page p
    let (h2, ids) := h1.append_all ps
    (h2, id :: ids)

/-- A page whose header was read from disk with `free_end = 34` and
`n_slots = 0` (only the magic is validated on read, so this state is
reachable): the gap between directory end (32) and free_end is 2 < 4. -/
def pageGap2 : Page := (Page.new 0 0).setB 12 (toLE 2 34)

/-- A heap page read from disk with one slot whose directory entry records
`offset = 8184, len = 9`: the tombstone byte would live at offset 8192,
one past the end of the page. -/
def pageBadSlot : Page :=
  (((Page.new 0 0).setB 10 (toLE 2 1)).setB 32 (toLE 2 8184)).setB 34 (toLE 2 9)

/-- A 20-byte row: txn_id 1, tombstone 0, 11 payload bytes (scenario S6). -/
def row20 : List Nat := toLE 8 1 ++ [0] ++ List.replicate 11 7

/-- A fresh heap page holding `row20` in slot 0. -/
def pageW9 : Page := (((Page.new 0 0).insert row20).map Prod.fst).getD (Page.new 0 0)

/-- The tree produced by running `split_root(promote_key = 99,
right_page_id = 2)` on a fresh one-page tree. -/
def splitRootDemo : BTree := (BTree.create.split_root 99 2).1

/-- Page 0 of `splitRootDemo`: the newly installed root. -/
def splitRootDemoRoot : Page := splitRootDemo.index_heap.pages.getD 0 ⟨fun _ => 0⟩

/-- Two well-formed pages used to witness the heap round-trip: a heap page
holding one ten-byte slot, and a fresh leaf page. -/
def pageA : Page :=
  (((Page.new 7 0).insert [1, 2, 3, 4, 5, 6, 7, 8, 9, 10]).map Prod.fst).getD (Page.new 7 0)

/-- Second witness page for the heap round-trip. -/
def pageB : Page := Page.new 9 1

theorem toLE_length (w v : Nat) : (toLE w v).length = w := by
  induction w generalizing v with
  | zero => rfl
  | succ w ih => simp [toLE, ih]

theorem fromLE_toLE (w v : Nat) : fromLE (toLE w v) = v % 256 ^ w := by
  induction w generalizing v with
  | zero => simp [toLE, fromLE, Nat.mod_one]
  | succ w ih =>
    have hm : v % 256 ^ (w + 1) = v % 256 + 256 * (v / 256 % 256 ^ w) := by
      rw [pow_succ, mul_comm, Nat.mod_mul]
    rw [toLE, fromLE, ih, hm]
    omega

theorem toLE_getD (w v t : Nat) (h : t < w) : (toLE w v).getD t 0 = v / 256 ^ t % 256 := by
  induction w generalizing v t with
  | zero => omega
  | succ w ih =>
    cases t with
    | zero => simp [toLE]
    | succ t =>
      have : (toLE (w + 1) v).getD (t + 1) 0 = (toLE w (v / 256)).getD t 0 := rfl
      rw [this, ih _ _ (by omega), Nat.div_div_eq_div_mul, ← pow_succ']

theorem fromLE_lt (bs : List Nat) : fromLE bs < 256 ^ bs.length := by
  induction bs with
  | nil => simp [fromLE]
  | cons b bs ih =>
    rw [fromLE, List.length_cons, pow_succ']
    have : b % 256 < 256 := Nat.mod_lt _ (by omega)
    omega

theorem Page.setB_data (p : Page) (off : Nat) (bs : List Nat) (o : Nat) :
    (p.setB off bs).data o =
      if off ≤ o ∧ o < off + bs.length then bs.getD (o - off) 0 else p.data o := rfl

theorem Page.rdU_length (p : Page) (off len : Nat) : (p.rdU off len).length = len := by
  simp [Page.rdU]

theorem Page.rdU_congr (p q : Page) (off len : Nat)
    (h : ∀ j < len, p.data (off + j) = q.data (off + j)) :
    p.rdU off len = q.rdU off len := by
  unfold Page.rdU
  exact List.map_congr_left fun j hj => h j (List.mem_range.mp hj)

theorem Page.rdU_setB_self (p : Page) (off : Nat) (bs : List Nat) :
    (p.setB off bs).rdU off bs.length = bs := by
  apply List.ext_getElem
  · simp [Page.rdU]
  intro i h1 h2
  simp only [Page.rdU, Page.setB, List.getElem_map, List.getElem_range]
  rw [if_pos ⟨by omega, by omega⟩, Nat.add_sub_cancel_left,
    List.getD_eq_getElem bs 0 h2]

theorem Page.rdU_eq_toLE (p : Page) (off w v : Nat)
    (h : ∀ j < w, p.data (off + j) = v / 256 ^ j % 256) :
    p.rdU off w = toLE w v := by
  apply List.ext_getElem
  · simp [Page.rdU, toLE_length]
  intro i h1 h2
  simp only [Page.rdU, List.getElem_map, List.getElem_range]
  have hw : i < w := by simpa [Page.rdU_length] using h1
  rw [h i hw, ← toLE_getD w v i hw, List.getD_eq_getElem _ 0]

theorem Page.set_page_id_data_low (p : Page) (v o : Nat) (h : o < 4) :
    (p.set_page_id v).data o = p.data o := by
  unfold Page.set_page_id
  rw [Page.setB_data, if_neg]
  rw [toLE_length]
  omega

theorem Page.set_page_id_data_high (p : Page) (v o : Nat) (h : 8 ≤ o) :
    (p.set_page_id v).data o = p.data o := by
  unfold Page.set_page_id
  rw [Page.setB_data, if_neg]
  rw [toLE_length]
  omega

theorem Page.magic_set_page_id (p : Page) (v : Nat) :
    (p.set_page_id v).magic = p.magic := by
  unfold Page.magic
  exact congrArg fromLE (Page.rdU_congr _ _ _ _ fun j hj =>
    Page.set_page_id_data_low p v (0 + j) (by omega))

theorem Page.page_id_set_page_id (p : Page) (v : Nat) :
    (p.set_page_id v).page_id = v % 2 ^ 32 := by
  unfold Page.page_id Page.set_page_id
  have h4 : (p.setB 4 (toLE 4 v)).rdU 4 4 = toLE 4 v := by
    have := Page.rdU_setB_self p 4 (toLE 4 v)
    rwa [toLE_length] at this
  rw [h4, fromLE_toLE]
  norm_num

theorem Page.n_slots_set_page_id (p : Page) (v : Nat) :
    (p.set_page_id v).n_slots = p.n_slots := by
  unfold Page.n_slots
  exact congrArg fromLE (Page.rdU_congr _ _ _ _ fun j hj =>
    Page.set_page_id_data_high p v (10 + j) (by omega))

set_option maxRecDepth 4000

theorem magic_leafData (n : Nat) : Page.magic ⟨leafData n⟩ = PAGE_MAGIC := by
  unfold Page.magic
  rw [show Page.rdU ⟨leafData n⟩ 0 4 = [66, 68, 83, 82] from rfl]
  rfl

theorem flags_leafData (n : Nat) : Page.flags ⟨leafData n⟩ = 1 := by
  unfold Page.flags
  rw [show Page.rdU ⟨leafData n⟩ 8 2 = [1, 0] from rfl]
  rfl

theorem leaf_next_leafData (n : Nat) : leaf_next ⟨leafData n⟩ = 0 := by
  unfold leaf_next
  rw [show Page.rdU ⟨leafData n⟩ BTREE_BODY_START 4 = [0, 0, 0, 0] from rfl]
  rfl

theorem leaf_num_entries_leafData (n : Nat) (hn : n < 65536) :
    leaf_num_entries ⟨leafData n⟩ = n := by
  unfold leaf_num_entries
  rw [show Page.rdU ⟨leafData n⟩ (BTREE_BODY_START + 4) 2 = [n % 256, n / 256 % 256] from rfl]
  simp only [fromLE]
  omega

theorem leafData_entry_byte (n i j : Nat) (hin : i < n) (hj : j < 14) :
    leafData n (38 + i * 14 + j) = entryByte i j := by
  unfold leafData
  rw [if_neg (by omega), if_pos (by omega)]
  have h1 : (38 + i * 14 + j - 38) / 14 = i := by omega
  have h2 : (38 + i * 14 + j - 38) % 14 = j := by omega
  rw [h1, h2]

theorem leaf_entry_offset_val (i : Nat) : leaf_entry_offset i = 38 + i * 14 := by
  unfold leaf_entry_offset BTREE_BODY_START LEAF_ENTRY_SIZE
  omega

theorem leaf_get_key_leafData (n i : Nat) (hin : i < n) (hn : n ≤ 582) :
    leaf_get_key ⟨leafData n⟩ i = some ((i : Nat) : Int) := by
  unfold leaf_get_key Page.rd
  rw [leaf_entry_offset_val, if_pos (by unfold PAGE_SIZE; omega)]
  rw [Page.rdU_eq_toLE _ _ 8 i (fun j hj => by
    show leafData n (38 + i * 14 + j) = _
    rw [leafData_entry_byte n i j hin (by omega)]
    unfold entryByte
    rw [if_pos hj])]
  have h8 : i % 256 ^ 8 = i := by
    have h2 : (582 : Nat) < 256 ^ 8 := by norm_num
    exact Nat.mod_eq_of_lt (by omega)
  simp only [Option.map_some']
  rw [fromLE_toLE, h8]
  have hlt : i < 2 ^ 63 := by
    have h2 : (582 : Nat) < 2 ^ 63 := by norm_num
    omega
  unfold natToInt64
  rw [if_pos hlt]

theorem leaf_get_ref_leafData (n i : Nat) (hin : i < n) (hn : n ≤ 582) :
    leaf_get_ref ⟨leafData n⟩ i = some ⟨i, i⟩ := by
  unfold leaf_get_ref Page.rd
  rw [leaf_entry_offset_val, if_pos (by unfold PAGE_SIZE; omega),
    if_pos (by unfold PAGE_SIZE; omega)]
  rw [Page.rdU_eq_toLE _ _ 4 i (fun j hj => by
    show leafData n (38 + i * 14 + 8 + j) = _
    have ha : 38 + i * 14 + 8 + j = 38 + i * 14 + (8 + j) := by omega
    rw [ha, leafData_entry_byte n i (8 + j) hin (by omega)]
    unfold entryByte
    rw [if_neg (by omega), if_pos (by omega)]
    have hb : 8 + j - 8 = j := by omega
    rw [hb])]
  rw [Page.rdU_eq_toLE _ _ 2 i (fun j hj => by
    show leafData n (38 + i * 14 + 12 + j) = _
    have ha : 38 + i * 14 + 12 + j = 38 + i * 14 + (12 + j) := by omega
    rw [ha, leafData_entry_byte n i (12 + j) hin (by omega)]
    unfold entryByte
    rw [if_neg (by omega), if_neg (by omega)]
    have hb : 12 + j - 12 = j := by omega
    rw [hb])]
  have h4 : i % 256 ^ 4 = i := by
    have h2 : (582 : Nat) < 256 ^ 4 := by norm_num
    exact Nat.mod_eq_of_lt (by omega)
  have h2 : i % 256 ^ 2 = i := by
    have h2' : (582 : Nat) < 256 ^ 2 := by norm_num
    exact Nat.mod_eq_of_lt (by omega)
  simp only [fromLE_toLE, h4, h2]

theorem Page.ext (p q : Page) (h : ∀ o, p.data o = q.data o) : p = q := by
  cases p
  cases q
  simp only [Page.mk.injEq]
  exact funext h

theorem int64ToNat_coe (n : Nat) (hn : n < 2 ^ 64) : int64ToNat ((n : Nat) : Int) = n := by
  unfold int64ToNat
  omega

theorem leaf_find_idx_leafData (n : Nat) (hn : n ≤ 582) :
    ∀ rem i, i + rem = n → leaf_find_idx ⟨leafData n⟩ ((n : Nat) : Int) rem i n = .ok n := by
  intro rem
  induction rem with
  | zero => intro i h; rfl
  | succ r ih =>
    intro i h
    have hkey := leaf_get_key_leafData n i (by omega) hn
    simp only [leaf_find_idx, hkey]
    rw [if_neg (by omega : ¬ ((i : Nat) : Int) = ((n : Nat) : Int)),
      if_neg (by omega : ¬ ((i : Nat) : Int) > ((n : Nat) : Int))]
    exact ih (i + 1) (by omega)

theorem leafData_insert_chain (n : Nat) (hn : n ≤ 581) :
    Page.setB
      ((((Page.mk (leafData n)).setB (leaf_entry_offset n)
            (toLE 8 (int64ToNat ((n : Nat) : Int)))).setB
          (leaf_entry_offset n + 8) (toLE 4 n)).setB
        (leaf_entry_offset n + 12) (toLE 2 n))
      (BTREE_BODY_START + 4) (toLE 2 (n + 1)) = ⟨leafData (n + 1)⟩ := by
  rw [int64ToNat_coe n (by omega)]
  apply Page.ext
  intro o
  simp only [Page.setB_data, toLE_length, leaf_entry_offset_val, BTREE_BODY_START]
  by_cases hc : 32 + 4 ≤ o ∧ o < 32 + 4 + 2
  · -- the num_entries bytes 36..37
    rw [if_pos hc]
    unfold leafData
    rcases (by omega : o = 36 ∨ o = 37) with h | h <;> subst h
    · rw [toLE_getD 2 (n + 1) 0 (by omega)]
      simp
    · rw [toLE_getD 2 (n + 1) 1 (by omega)]
      simp
  rw [if_neg hc]
  by_cases h3 : 38 + n * 14 + 12 ≤ o ∧ o < 38 + n * 14 + 12 + 2
  · -- slot bytes of the new entry
    rw [if_pos h3]
    have ho : o = 38 + n * 14 + 12 + (o - (38 + n * 14 + 12)) := by omega
    rw [toLE_getD 2 n (o - (38 + n * 14 + 12)) (by omega)]
    unfold leafData
    rw [if_neg (by omega), if_pos (by omega)]
    unfold entryByte
    rw [if_neg (by omega), if_neg (by omega)]
    have h1 : (o - 38) / 14 = n := by omega
    have h2 : (o - 38) % 14 - 12 = o - (38 + n * 14 + 12) := by omega
    rw [h1, h2]
  rw [if_neg h3]
  by_cases h4 : 38 + n * 14 + 8 ≤ o ∧ o < 38 + n * 14 + 8 + 4
  · -- page_id bytes of the new entry
    rw [if_pos h4]
    rw [toLE_getD 4 n (o - (38 + n * 14 + 8)) (by omega)]
    unfold leafData
    rw [if_neg (by omega), if_pos (by omega)]
    unfold entryByte
    rw [if_neg (by omega), if_pos (by omega)]
    have h1 : (o - 38) / 14 = n := by omega
    have h2 : (o - 38) % 14 - 8 = o - (38 + n * 14 + 8) := by omega
    rw [h1, h2]
  rw [if_neg h4]
  by_cases h5 : 38 + n * 14 ≤ o ∧ o < 38 + n * 14 + 8
  · -- key bytes of the new entry
    rw [if_pos h5]
    rw [toLE_getD 8 n (o - (38 + n * 14)) (by omega)]
    unfold leafData
    rw [if_neg (by omega), if_pos (by omega)]
    unfold entryByte
    rw [if_pos (by omega)]
    have h1 : (o - 38) / 14 = n := by omega
    have h2 : (o - 38) % 14 = o - (38 + n * 14) := by omega
    rw [h1, h2]
  rw [if_neg h5]
  -- untouched bytes
  show leafData n o = leafData (n + 1) o
  unfold leafData
  by_cases h6 : o < 38
  · rw [if_pos h6, if_pos h6]
    rw [if_neg (show ¬o = 36 by omega), if_neg (show ¬o = 36 by omega),
      if_neg (show ¬o = 37 by omega), if_neg (show ¬o = 37 by omega)]
  rw [if_neg h6, if_neg h6]
  by_cases h7 : o < 38 + 14 * n
  · rw [if_pos h7, if_pos (by omega)]
  rw [if_neg h7, if_neg (by omega)]

theorem leaf_set_entry_eq (p : Page) (idx : Nat) (key : Int) (r : RowRef)
    (h : leaf_entry_offset idx + 14 ≤ PAGE_SIZE) :
    leaf_set_entry p idx key r =
      some (((p.setB (leaf_entry_offset idx) (toLE 8 (int64ToNat key))).setB
        (leaf_entry_offset idx + 8) (toLE 4 r.page_id)).setB
        (leaf_entry_offset idx + 12) (toLE 2 r.slot)) := by
  unfold leaf_set_entry Page.wr
  rw [if_pos (by rw [toLE_length]; omega)]
  dsimp only
  rw [if_pos (by rw [toLE_length]; omega)]
  dsimp only
  rw [if_pos (by rw [toLE_length]; omega)]

theorem leaf_set_entry_oob (p : Page) (idx : Nat) (key : Int) (r : RowRef)
    (h : PAGE_SIZE < leaf_entry_offset idx + 8) :
    leaf_set_entry p idx key r = none := by
  unfold leaf_set_entry Page.wr
  rw [if_neg (by rw [toLE_length]; omega)]

theorem leaf_insert_at_leafData (n : Nat) (hn : n ≤ 581) :
    leaf_insert_at ⟨leafData n⟩ n ((n : Nat) : Int) ⟨n, n⟩ = some ⟨leafData (n + 1)⟩ := by
  unfold leaf_insert_at
  rw [leaf_num_entries_leafData n (by omega)]
  simp only [Nat.sub_self, leaf_shift]
  rw [leaf_set_entry_eq ⟨leafData n⟩ n ((n : Nat) : Int) ⟨n, n⟩
    (by rw [leaf_entry_offset_val]; unfold PAGE_SIZE; omega)]
  dsimp only
  unfold leaf_set_num_entries
  rw [leafData_insert_chain n hn]

theorem leaf_insert_at_leafData_full :
    leaf_insert_at ⟨leafData 582⟩ 582 ((582 : Nat) : Int) ⟨582, 582⟩ = none := by
  unfold leaf_insert_at
  rw [leaf_num_entries_leafData 582 (by omega)]
  simp only [Nat.sub_self, leaf_shift]
  rw [leaf_set_entry_oob ⟨leafData 582⟩ 582 ((582 : Nat) : Int) ⟨582, 582⟩
    (by rw [leaf_entry_offset_val]; unfold PAGE_SIZE; omega)]

theorem read_page_leafState (n : Nat) :
    (leafState n).index_heap.read_page 0 = .ok ⟨leafData n⟩ := by
  have h : Page.magic ⟨leafData n⟩ = PAGE_MAGIC := magic_leafData n
  simp [leafState, HeapFile.read_page, h]


theorem insert_into_step_leaf (t : BTree) (page page1 : Page) (fuel pid nn idx : Nat)
    (key : Int) (v : RowRef)
    (hread : t.index_heap.read_page pid = .ok page)
    (hflags : page.flags = 1)
    (hn : leaf_num_entries page = nn)
    (hfind : leaf_find_idx page key nn 0 nn = .ok idx)
    (hins : leaf_insert_at page idx key v = some page1)
    (hmax : ¬ nn + 1 > leaf_max_entries) :
    t.insert_into (fuel + 1) pid key v =
      (⟨t.index_heap.write_page pid page1⟩, .ok none) := by
  simp only [BTree.insert_into, hread, hflags, hn, hfind, hins, if_pos rfl, if_true]
  rw [if_neg hmax]

theorem insert_into_step_leaf_panic (t : BTree) (page : Page) (fuel pid nn idx : Nat)
    (key : Int) (v : RowRef)
    (hread : t.index_heap.read_page pid = .ok page)
    (hflags : page.flags = 1)
    (hn : leaf_num_entries page = nn)
    (hfind : leaf_find_idx page key nn 0 nn = .ok idx)
    (hins : leaf_insert_at page idx key v = none) :
    t.insert_into (fuel + 1) pid key v = (t, .error .panicked) := by
  simp only [BTree.insert_into, hread, hflags, hn, hfind, hins, if_pos rfl, if_true]

theorem insert_of_insert_into (t t1 : BTree) (key : Int) (v : RowRef)
    (hne : ¬ t.index_heap.num_pages = 0)
    (h : t.insert_into (t.num_pages + 1) 0 key v = (t1, .ok none)) :
    t.insert key v = (t1, .ok ()) := by
  unfold BTree.insert
  rw [if_neg hne, h]

theorem insert_of_insert_into_error (t t1 : BTree) (key : Int) (v : RowRef) (e : DbErr)
    (hne : ¬ t.index_heap.num_pages = 0)
    (h : t.insert_into (t.num_pages + 1) 0 key v = (t1, .error e)) :
    t.insert key v = (t1, .error e) := by
  unfold BTree.insert
  rw [if_neg hne, h]

theorem insert_leafState (n : Nat) (hn : n ≤ 581) :
    (leafState n).insert ((n : Nat) : Int) ⟨n, n⟩ = (leafState (n + 1), .ok ()) := by
  have hw : (⟨(leafState n).index_heap.write_page 0 ⟨leafData (n + 1)⟩⟩ : BTree) =
      leafState (n + 1) := rfl
  apply insert_of_insert_into
  · exact fun h => absurd h (by simp [leafState, HeapFile.num_pages])
  rw [show (leafState n).num_pages + 1 = 1 + 1 from rfl]
  rw [insert_into_step_leaf (leafState n) ⟨leafData n⟩ ⟨leafData (n + 1)⟩ 1 0 n n
    ((n : Nat) : Int) ⟨n, n⟩ (read_page_leafState n) (flags_leafData n)
    (leaf_num_entries_leafData n (by omega)) (leaf_find_idx_leafData n (by omega) n 0 (by omega))
    (leaf_insert_at_leafData n hn)
    (by rw [show leaf_max_entries = 582 from rfl]; omega)]
  rw [hw]

theorem insert_leafState_full :
    (leafState 582).insert ((582 : Nat) : Int) ⟨582, 582⟩ =
      (leafState 582, .error .panicked) := by
  apply insert_of_insert_into_error
  · exact fun h => absurd h (by simp [leafState, HeapFile.num_pages])
  rw [show (leafState 582).num_pages + 1 = 1 + 1 from rfl]
  exact insert_into_step_leaf_panic (leafState 582) ⟨leafData 582⟩ 1 0 582 582
    ((582 : Nat) : Int) ⟨582, 582⟩ (read_page_leafState 582) (flags_leafData 582)
    (leaf_num_entries_leafData 582 (by omega))
    (leaf_find_idx_leafData 582 (by omega) 582 0 (by omega))
    leaf_insert_at_leafData_full

theorem insertSeq_cons (t t1 : BTree) (k : Int) (v : RowRef) (rest : List (Int × RowRef))
    (h : t.insert k v = (t1, .ok ())) :
    t.insertSeq ((k, v) :: rest) = t1.insertSeq rest := by
  simp only [BTree.insertSeq, h]

theorem insertSeq_cons_error (t t1 : BTree) (k : Int) (v : RowRef)
    (rest : List (Int × RowRef)) (e : DbErr) (h : t.insert k v = (t1, .error e)) :
    t.insertSeq ((k, v) :: rest) = (t1, .error e) := by
  simp only [BTree.insertSeq, h]

theorem insertSeq_ascOps (m : Nat) :
    ∀ n, n + m ≤ 582 →
      (leafState n).insertSeq (ascOps n m) = (leafState (n + m), .ok ()) := by
  induction m with
  | zero => intro n h; rfl
  | succ m ih =>
    intro n h
    rw [show ascOps n (m + 1) = (((n : Nat) : Int), RowRef.mk n n) :: ascOps (n + 1) m from rfl]
    rw [insertSeq_cons _ _ _ _ _ (insert_leafState n (by omega))]
    rw [ih (n + 1) (by omega)]
    have he : n + 1 + m = n + (m + 1) := by omega
    rw [he]

theorem insertSeq_append (l1 : List (Int × RowRef)) :
    ∀ t t' l2, BTree.insertSeq t l1 = (t', .ok ()) →
      BTree.insertSeq t (l1 ++ l2) = BTree.insertSeq t' l2 := by
  induction l1 with
  | nil =>
    intro t t' l2 h
    simp only [BTree.insertSeq] at h
    have h1 : t = t' := congrArg Prod.fst h
    rw [List.nil_append, h1]
  | cons kv rest ih =>
    intro t t' l2 h
    obtain ⟨k, v⟩ := kv
    simp only [BTree.insertSeq, List.cons_append] at h ⊢
    rcases hins : t.insert k v with ⟨t1, r⟩
    rw [hins] at h
    cases r with
    | ok u =>
      dsimp only at h ⊢
      exact ih t1 t' l2 h
    | error e =>
      dsimp only at h
      exact absurd (congrArg Prod.snd h) (by simp)

theorem ascOps_append (a : Nat) :
    ∀ s b, ascOps s (a + b) = ascOps s a ++ ascOps (s + a) b := by
  induction a with
  | zero => intro s b; simp [ascOps]
  | succ a ih =>
    intro s b
    rw [show a + 1 + b = (a + b) + 1 from by omega]
    show (((s : Nat) : Int), RowRef.mk s s) :: ascOps (s + 1) (a + b) = _
    rw [ih (s + 1) b]
    rw [show s + 1 + a = s + (a + 1) from by omega]
    rfl

theorem create_eq : BTree.create = leafState 0 := by
  unfold BTree.create alloc_empty_leaf HeapFile.append_page HeapFile.create leafState
  simp only [List.nil_append]
  congr 1
  congr 1
  congr 1
  apply Page.ext
  intro o
  by_cases h : o < 38
  · interval_cases o <;> rfl
  unfold Page.set_page_id leaf_set_num_entries leaf_set_next Page.new
  simp only [Page.setB_data, toLE_length]
  rw [if_neg (by omega), if_neg (by unfold BTREE_BODY_START; omega),
    if_neg (by unfold BTREE_BODY_START; omega), if_neg (by omega),
    if_neg (by omega), if_neg (by omega), if_neg (by omega), if_neg (by omega)]
  unfold leafData
  rw [if_neg (by omega), if_neg (by omega)]

/-- C1: the spec claims get/range_scan correctness for ANY finite set of
unique keys.  The code violates it: on a fresh tree, inserting the 583
ascending keys 0..582 panics, because a leaf holds at most
leaf_max_entries = 582 entries (bytes 38..8186 of the page), the overflow
check in insert_into runs only after leaf_insert_at has already written,
and writing the 583rd entry touches bytes 8186..8200, beyond the 8192-byte
page.  After 582 successful inserts the tree is exactly leafState 582 and
the next insert aborts with a panic (out-of-bounds slice write in
leaf_set_entry), so the claimed ordered-map property cannot hold for key
sets larger than 582. -/
theorem C1_insert_583_panics :
    BTree.create.insertSeq (ascOps 0 583) = (leafState 582, .error .panicked) := by
  rw [create_eq]
  rw [show (583 : Nat) = 582 + 1 from rfl]
  rw [ascOps_append 582 0 1]
  rw [insertSeq_append (ascOps 0 582) (leafState 0) (leafState (0 + 582))
    (ascOps (0 + 582) 1) (insertSeq_ascOps 582 0 (by omega))]
  rw [show (0 + 582 : Nat) = 582 from by omega]
  rw [show ascOps 582 1 = [(((582 : Nat) : Int), RowRef.mk 582 582)] from rfl]
  exact insertSeq_cons_error _ _ _ _ _ _ insert_leafState_full

/-- C3: the spec and the repository's own test btree_split_under_load claim
that after inserting the 500 keys 0..500 the backing file holds more than
one page.  The code disagrees: leaf capacity is
leaf_max_entries = (8192 - 32 - 4 - 2) / 14 = 582, a leaf splits only when
its entry count exceeds that, so 500 inserts stay in the root leaf and
num_pages remains exactly 1 (every get(i) does return the inserted ref,
but the num_pages > 1 part of the claim fails). -/
theorem C3_insert_500_keys_single_page :
    BTree.create.insertSeq (ascOps 0 500) = (leafState 500, .ok ()) ∧
      (BTree.create.insertSeq (ascOps 0 500)).1.num_pages = 1 ∧
      leaf_max_entries = 582 := by
  have hmain : BTree.create.insertSeq (ascOps 0 500) = (leafState 500, .ok ()) := by
    rw [create_eq]
    have h := insertSeq_ascOps 500 0 (by omega)
    rwa [show (0 + 500 : Nat) = 500 from by omega] at h
  refine ⟨hmain, ?_, rfl⟩
  rw [hmain]
  rfl

theorem scan_find_dup (page : Page) (key : Int) (r : RowRef) :
    ∀ rem i dflt, leaf_scan_get page key rem i = .ok (some r) →
      leaf_find_idx page key rem i dflt = .error (.duplicateKey key) := by
  intro rem
  induction rem with
  | zero => intro i dflt h; exact Option.noConfusion (Except.ok.inj h)
  | succ rm ih =>
    intro i dflt h
    simp only [leaf_scan_get] at h
    simp only [leaf_find_idx]
    cases hk : leaf_get_key page i with
    | none => rw [hk] at h; exact absurd h (by simp)
    | some k =>
      rw [hk] at h
      dsimp only at h ⊢
      by_cases he : k = key
      · rw [if_pos he]
      · rw [if_neg he] at h ⊢
        by_cases hg : k > key
        · rw [if_pos hg] at h
          exact absurd h (by simp)
        · rw [if_neg hg] at h ⊢
          exact ih (i + 1) dflt h

theorem get_some_insert_dup (k : Int) (v : RowRef) :
    ∀ fuel (t : BTree) pid r, t.get_from fuel pid k = .ok (some r) →
      t.insert_into fuel pid k v = (t, .error (.duplicateKey k)) := by
  intro fuel
  induction fuel with
  | zero =>
    intro t pid r h
    exact absurd h (by simp [BTree.get_from])
  | succ f ih =>
    intro t pid r h
    simp only [BTree.get_from] at h
    simp only [BTree.insert_into]
    cases hrd : t.index_heap.read_page pid with
    | error e => rw [hrd] at h; exact absurd h (by simp)
    | ok page =>
      rw [hrd] at h
      dsimp only at h ⊢
      by_cases hf : page.flags = 1
      · rw [if_pos hf] at h ⊢
        rw [scan_find_dup page k r (leaf_num_entries page) 0 (leaf_num_entries page) h]
      · rw [if_neg hf] at h ⊢
        cases hroute : route_child_idx page k (internal_num_keys page) 0 0 with
        | error e => rw [hroute] at h; exact absurd h (by simp)
        | ok ci =>
          rw [hroute] at h
          dsimp only at h ⊢
          cases hch : internal_get_child page ci with
          | none => rw [hch] at h; exact absurd h (by simp)
          | some child =>
            rw [hch] at h
            dsimp only at h ⊢
            rw [ih t child r h]

/-- C5: a key already present (observably: get returns it, i.e. it exists in
the target leaf of the descent, which is how the spec phrases the failure
condition) makes a subsequent insert of that key fail with DuplicateKey and
return the state unchanged: the duplicate check in the leaf scan runs before
any write, and every ancestor on the descent path writes only after a
successful child split, so the returned tree is literally the input tree
(same pages, same page count). -/
theorem C5_duplicate_insert_rejected (t : BTree) (k : Int) (v r : RowRef)
    (h : t.get k = .ok (some r)) :
    t.insert k v = (t, .error (.duplicateKey k)) := by
  have hne : ¬ t.index_heap.num_pages = 0 := by
    intro h0
    have hlen : t.index_heap.pages.length = 0 := h0
    have hrp : t.index_heap.read_page 0 = .error (.pageOutOfRange 0) := by
      unfold HeapFile.read_page
      rw [dif_neg (by omega)]
    unfold BTree.get at h
    simp only [BTree.get_from, hrp] at h
    exact Except.noConfusion h
  unfold BTree.insert
  rw [if_neg hne]
  unfold BTree.get at h
  rw [get_some_insert_dup k v (t.num_pages + 1) t 0 r h]

theorem leaf_scan_get_leafData_zero (m : Nat) (hm : m + 1 ≤ 582) :
    leaf_scan_get ⟨leafData (m + 1)⟩ ((0 : Nat) : Int) (m + 1) 0 = .ok (some ⟨0, 0⟩) := by
  simp only [leaf_scan_get]
  rw [leaf_get_key_leafData (m + 1) 0 (by omega) (by omega)]
  dsimp only
  rw [if_pos rfl]
  rw [leaf_get_ref_leafData (m + 1) 0 (by omega) (by omega)]

theorem get_leafState_one :
    (leafState 1).get ((0 : Nat) : Int) = .ok (some ⟨0, 0⟩) := by
  unfold BTree.get
  rw [show (leafState 1).num_pages + 1 = 1 + 1 from rfl]
  simp only [BTree.get_from, read_page_leafState 1, flags_leafData 1, if_pos rfl, if_true]
  rw [leaf_num_entries_leafData 1 (by omega)]
  exact leaf_scan_get_leafData_zero 0 (by omega)

/-- Witness for C5: the one-page tree holding key 0 answers get(0) with its
row ref, and inserting key 0 again returns the DuplicateKey error with the
tree exactly unchanged. -/
theorem C5_witness :
    (leafState 1).get ((0 : Nat) : Int) = .ok (some ⟨0, 0⟩) ∧
      (leafState 1).insert ((0 : Nat) : Int) ⟨7, 7⟩ =
        (leafState 1, .error (.duplicateKey ((0 : Nat) : Int))) :=
  ⟨get_leafState_one,
    C5_duplicate_insert_rejected (leafState 1) ((0 : Nat) : Int) ⟨7, 7⟩ ⟨0, 0⟩
      get_leafState_one⟩

/-- C2: the claim (and the spec) requires the new root installed by
split_root to carry key_1 = promote_key in the i64 the routing code
compares, i.e. page bytes 38..46, read by internal_get_key _ 0.  The code
instead calls internal_set_child_key(new_root, 1, right_page_id,
promote_key), which stores child_1 at bytes 46..50 (correct) but the key at
bytes 50..58 (internal_get_key _ 1), one cell too far: after
split_root(99, 2) on a fresh tree, page 0 is Internal with num_keys = 1,
child_0 = 1 (the appended copy of the old root) and child_1 = 2 as claimed,
but the routing key at bytes 38..46 is the page's stale zero, not 99. -/
theorem C2_split_root_misplaces_key :
    (BTree.create.split_root 99 2).2 = .ok () ∧
      splitRootDemo.num_pages = 2 ∧
      splitRootDemoRoot.flags = 2 ∧
      internal_num_keys splitRootDemoRoot = 1 ∧
      internal_get_child splitRootDemoRoot 0 = some 1 ∧
      internal_get_child splitRootDemoRoot 1 = some 2 ∧
      internal_get_key splitRootDemoRoot 0 = some 0 ∧
      internal_get_key splitRootDemoRoot 1 = some 99 := by
  exact ⟨rfl, by decide, by decide, rfl, by decide, by decide, by decide, by decide⟩

/-- C6 (write_page is absent from src/, modelled from the spec): for
id < num_pages, write_page stores the page at index id, leaves num_pages
unchanged, and leaves every other page untouched. -/
theorem C6_write_page_spec (h : HeapFile) (id : Nat) (p : Page)
    (hid : id < h.num_pages) :
    (h.write_page id p).num_pages = h.num_pages ∧
      (h.write_page id p).pages[id]? = some p ∧
      ∀ j, j ≠ id → (h.write_page id p).pages[j]? = h.pages[j]? := by
  unfold HeapFile.write_page HeapFile.num_pages
  unfold HeapFile.num_pages at hid
  exact ⟨List.length_set h.pages id p, List.getElem?_set_eq_of_lt p hid,
    fun j hj => List.getElem?_set_ne fun he => hj he.symm⟩

/-- Witness for C6 at a concrete two-page file. -/
theorem C6_witness :
    (⟨[Page.new 3 0, Page.new 4 0]⟩ : HeapFile).num_pages = 2 ∧
      ((⟨[Page.new 3 0, Page.new 4 0]⟩ : HeapFile).write_page 1 (Page.new 9 1)).num_pages = 2 ∧
      ((⟨[Page.new 3 0, Page.new 4 0]⟩ : HeapFile).write_page 1
          (Page.new 9 1)).pages[1]? = some (Page.new 9 1) := by
  obtain ⟨h1, h2, -⟩ :=
    C6_write_page_spec ⟨[Page.new 3 0, Page.new 4 0]⟩ 1 (Page.new 9 1) (by decide)
  exact ⟨rfl, by rw [h1]; rfl, h2⟩

/-- C7 amended: free_space equals the saturating value
max(0, free_end - (HEADER_LEN + n_slots*4) - 4) whenever free_end lies at
or below the directory end, or at least 4 bytes above it.  (In the window
0 < free_end - dir_end < 4 the second subtraction underflows instead; see
the counterexample.) -/
theorem C7_free_space_amended (p : Page)
    (h : p.free_end ≤ p.slot_dir_end ∨ p.slot_dir_end + SLOT_SIZE ≤ p.free_end) :
    p.free_space = p.free_end - (HEADER_LEN + p.n_slots * SLOT_SIZE) - SLOT_SIZE := by
  have hfe : p.free_end < 65536 := by
    have h2 := fromLE_lt (p.rdU 12 2)
    rw [Page.rdU_length] at h2
    have h3 : (256 : Nat) ^ 2 = 65536 := by norm_num
    unfold Page.free_end
    omega
  simp only [Page.free_space]
  rcases h with h | h
  · rw [if_pos h]
    unfold Page.slot_dir_end at h
    omega
  · rw [if_neg (by unfold SLOT_SIZE at h; omega)]
    unfold usizeSub Page.slot_dir_end HEADER_LEN SLOT_SIZE at *
    omega

/-- Witness for C7 at a freshly formatted heap page: free_end = 8192,
n_slots = 0, so free_space = 8192 - 32 - 4 = 8156. -/
theorem C7_witness :
    (Page.new 0 0).slot_dir_end + SLOT_SIZE ≤ (Page.new 0 0).free_end ∧
      (Page.new 0 0).free_space =
        (Page.new 0 0).free_end - (HEADER_LEN + (Page.new 0 0).n_slots * SLOT_SIZE) -
          SLOT_SIZE :=
  ⟨by decide, C7_free_space_amended (Page.new 0 0) (Or.inr (by decide))⟩

/-- Counterexample to C7 as stated: a page whose header (only the magic is
validated on read) records free_end = 34 and n_slots = 0 puts the directory
end at 32, the gap at 2, and the unchecked `- SLOT_SIZE` underflows: the
release-mode result wraps to 2^64 - 2 (debug builds panic), while the
claimed saturating value is 0. -/
theorem C7_free_space_underflow_counterex :
    pageGap2.free_end = 34 ∧ pageGap2.n_slots = 0 ∧
      pageGap2.free_space = 2 ^ 64 - 2 ∧
      pageGap2.free_end - (HEADER_LEN + pageGap2.n_slots * SLOT_SIZE) - SLOT_SIZE = 0 := by
  exact ⟨by decide, by decide, by decide, by decide⟩

/-- C9 amended: for a page whose slot-i directory entry lies inside the page
and whose recorded offset leaves room for the 9-byte row header (both true
of every slot created by Page::insert), delete_slot behaves exactly as
claimed: InvalidSlot for i >= n_slots, RowTooShort for a recorded length
below 9, and otherwise it sets exactly the byte at recorded offset + 8
(after the txn_id) to 1, leaving every other byte of the page unchanged.
(Without those provisos the claim fails: see the counterexample, where the
tombstone write lands outside the page and the code panics.) -/
theorem C9_delete_slot_amended (p : Page) (i : Nat)
    (hdir : HEADER_LEN + i * SLOT_SIZE + SLOT_SIZE ≤ PAGE_SIZE)
    (hoff : p.slot_offset i + ROW_HEADER_LEN ≤ PAGE_SIZE) :
    (p.n_slots ≤ i → p.delete_slot i = .error (.invalidSlot i)) ∧
      (i < p.n_slots → p.slot_len i < ROW_HEADER_LEN →
        p.delete_slot i = .error .rowTooShort) ∧
      (i < p.n_slots → ROW_HEADER_LEN ≤ p.slot_len i →
        p.delete_slot i = .ok (p.setB (p.slot_offset i + 8) [1]) ∧
          (p.setB (p.slot_offset i + 8) [1]).data (p.slot_offset i + 8) = 1 ∧
          ∀ o, o ≠ p.slot_offset i + 8 →
            (p.setB (p.slot_offset i + 8) [1]).data o = p.data o) := by
  have hrd1 : p.rd (HEADER_LEN + i * SLOT_SIZE) 2 =
      some (p.rdU (HEADER_LEN + i * SLOT_SIZE) 2) := by
    unfold Page.rd
    rw [if_pos (by unfold HEADER_LEN SLOT_SIZE PAGE_SIZE at *; omega)]
  have hrd2 : p.rd (HEADER_LEN + i * SLOT_SIZE + 2) 2 =
      some (p.rdU (HEADER_LEN + i * SLOT_SIZE + 2) 2) := by
    unfold Page.rd
    rw [if_pos (by unfold HEADER_LEN SLOT_SIZE PAGE_SIZE at *; omega)]
  refine ⟨fun hi => ?_, fun hi hlen => ?_, fun hi hlen => ?_⟩
  · unfold Page.delete_slot
    rw [if_pos hi]
  · unfold Page.delete_slot
    rw [if_neg (by omega)]
    simp only [hrd1, hrd2]
    unfold Page.slot_len at hlen
    rw [if_pos hlen]
  · unfold Page.delete_slot
    rw [if_neg (by omega)]
    simp only [hrd1, hrd2]
    unfold Page.slot_len at hlen
    rw [if_neg (by omega)]
    unfold Page.slot_offset at hoff
    unfold Page.wr
    rw [if_pos (by
      simp only [List.length_singleton]
      unfold ROW_HEADER_LEN at hoff
      omega)]
    refine ⟨rfl, ?_, ?_⟩
    · simp only [Page.setB_data, List.length_singleton, Page.slot_offset]
      rw [if_pos ⟨Nat.le_refl _, by omega⟩, Nat.sub_self]
      rfl
    · intro o ho
      simp only [Page.setB_data, List.length_singleton, Page.slot_offset] at ho ⊢
      rw [if_neg (by omega)]

/-- Witness for C9: a fresh heap page holding one 20-byte row (scenario S6);
deleting slot 0 succeeds, sets the tombstone byte at recorded offset 8172 + 8,
and preserves every other byte. -/
theorem C9_witness :
    0 < pageW9.n_slots ∧ 9 ≤ pageW9.slot_len 0 ∧
      (pageW9.delete_slot 0 = .ok (pageW9.setB (pageW9.slot_offset 0 + 8) [1]) ∧
        (pageW9.setB (pageW9.slot_offset 0 + 8) [1]).data (pageW9.slot_offset 0 + 8) = 1 ∧
        ∀ o, o ≠ pageW9.slot_offset 0 + 8 →
          (pageW9.setB (pageW9.slot_offset 0 + 8) [1]).data o = pageW9.data o) :=
  ⟨by decide, by decide,
    (C9_delete_slot_amended pageW9 0 (by decide) (by decide)).2.2 (by decide) (by decide)⟩

/-- Counterexample to C9 as stated: a heap page (readable from disk, magic
valid) whose slot-0 directory entry records offset = 8184 with length 9
passes both documented checks (0 < n_slots, 9 <= len) yet delete_slot does
not set a tombstone byte: the write at offset 8184 + 8 = 8192 is out of
bounds and the code panics instead. -/
theorem C9_delete_slot_oob_counterex :
    0 < pageBadSlot.n_slots ∧ ROW_HEADER_LEN ≤ pageBadSlot.slot_len 0 ∧
      pageBadSlot.slot_offset 0 = 8184 ∧
      pageBadSlot.delete_slot 0 = .error .panicked := by
  exact ⟨by decide, by decide, by decide, rfl⟩

theorem set_page_id_twice (p : Page) (x y : Nat) :
    (p.set_page_id x).set_page_id y = p.set_page_id y := by
  apply Page.ext
  intro o
  unfold Page.set_page_id
  simp only [Page.setB_data, toLE_length]
  by_cases h : 4 ≤ o ∧ o < 4 + 4
  · rw [if_pos h, if_pos h]
  · rw [if_neg h, if_neg h, if_neg h]

/-- C10: append_page never mutates the caller's page.  In the embedding the
operation is a function of the page value, and the claim's content is:
(a) the assigned id is the old num_pages; (b) the result is insensitive to
the caller's page_id field (it is overwritten in the stored copy, never
consulted, never written back); (c) the stored copy agrees with the
argument on every byte outside the page_id field (bytes 4..8); (d) the
stored copy's page_id is the assigned id — so the caller's page and the
stored page may disagree on page_id after the call, exactly as claimed. -/
theorem C10_append_page_frame (h : HeapFile) (p : Page) :
    (h.append_page p).2 = h.num_pages ∧
      (∀ x, h.append_page (p.set_page_id x) = h.append_page p) ∧
      (h.append_page p).1.pages = h.pages ++ [p.set_page_id h.num_pages] ∧
      (∀ o, o < 4 ∨ 8 ≤ o → (p.set_page_id h.num_pages).data o = p.data o) ∧
      (p.set_page_id h.num_pages).page_id = h.num_pages % 2 ^ 32 := by
  refine ⟨rfl, fun x => ?_, rfl, fun o ho => ?_, Page.page_id_set_page_id p h.num_pages⟩
  · unfold HeapFile.append_page
    simp only [set_page_id_twice]
  · rcases ho with ho | ho
    · exact Page.set_page_id_data_low p _ o ho
    · exact Page.set_page_id_data_high p _ o ho

/-- Witness for C10: appending a page whose own page_id field says 7 to an
empty file assigns id 0, ignores the 7 entirely (any prior set_page_id on
the argument changes nothing), and preserves the non-page_id bytes. -/
theorem C10_witness :
    (HeapFile.create.append_page (Page.new 7 0)).2 = 0 ∧
      HeapFile.create.append_page ((Page.new 7 0).set_page_id 5) =
        HeapFile.create.append_page (Page.new 7 0) ∧
      ((Page.new 7 0).set_page_id HeapFile.create.num_pages).data 8 =
        (Page.new 7 0).data 8 :=
  ⟨(C10_append_page_frame HeapFile.create (Page.new 7 0)).1,
    (C10_append_page_frame HeapFile.create (Page.new 7 0)).2.1 5,
    (C10_append_page_frame HeapFile.create (Page.new 7 0)).2.2.2.1 8 (Or.inr (by decide))⟩

theorem rdU_set_page_id_high (p : Page) (v off len : Nat) (h : 8 ≤ off) :
    (p.set_page_id v).rdU off len = p.rdU off len :=
  Page.rdU_congr _ _ _ _ fun j _ => Page.set_page_id_data_high p v (off + j) (by omega)

theorem get_slot_set_page_id (p : Page) (v j : Nat)
    (hdir : HEADER_LEN + p.n_slots * SLOT_SIZE ≤ PAGE_SIZE)
    (hoff : ∀ i < p.n_slots, HEADER_LEN ≤ p.slot_offset i) :
    (p.set_page_id v).get_slot j = p.get_slot j := by
  unfold Page.get_slot
  rw [Page.n_slots_set_page_id]
  by_cases hj : j ≥ p.n_slots
  · rw [if_pos hj, if_pos hj]
  · rw [if_neg hj, if_neg hj]
    have hb1 : HEADER_LEN + j * SLOT_SIZE + 2 ≤ PAGE_SIZE := by
      unfold HEADER_LEN SLOT_SIZE PAGE_SIZE at *
      omega
    have hb2 : HEADER_LEN + j * SLOT_SIZE + 2 + 2 ≤ PAGE_SIZE := by
      unfold HEADER_LEN SLOT_SIZE PAGE_SIZE at *
      omega
    have hr1 : (p.set_page_id v).rd (HEADER_LEN + j * SLOT_SIZE) 2 =
        some (p.rdU (HEADER_LEN + j * SLOT_SIZE) 2) := by
      unfold Page.rd
      rw [if_pos hb1, rdU_set_page_id_high p v _ 2 (by unfold HEADER_LEN; omega)]
    have hr2 : (p.set_page_id v).rd (HEADER_LEN + j * SLOT_SIZE + 2) 2 =
        some (p.rdU (HEADER_LEN + j * SLOT_SIZE + 2) 2) := by
      unfold Page.rd
      rw [if_pos hb2, rdU_set_page_id_high p v _ 2 (by unfold HEADER_LEN; omega)]
    have hr1' : p.rd (HEADER_LEN + j * SLOT_SIZE) 2 =
        some (p.rdU (HEADER_LEN + j * SLOT_SIZE) 2) := by
      unfold Page.rd
      rw [if_pos hb1]
    have hr2' : p.rd (HEADER_LEN + j * SLOT_SIZE + 2) 2 =
        some (p.rdU (HEADER_LEN + j * SLOT_SIZE + 2) 2) := by
      unfold Page.rd
      rw [if_pos hb2]
    simp only [hr1, hr2, hr1', hr2']
    by_cases hbig :
        fromLE (p.rdU (HEADER_LEN + j * SLOT_SIZE) 2) +
          fromLE (p.rdU (HEADER_LEN + j * SLOT_SIZE + 2) 2) > PAGE_SIZE
    · rw [if_pos hbig, if_pos hbig]
    · rw [if_neg hbig, if_neg hbig]
      rw [rdU_set_page_id_high p v _ _ (by
        have h1 := hoff j (by omega)
        unfold Page.slot_offset at h1
        exact le_trans (by unfold HEADER_LEN; omega) h1)]

theorem append_all_pages (ps : List Page) :
    ∀ h : HeapFile,
      (h.append_all ps).1.pages =
        h.pages ++ List.zipWith (fun p i => p.set_page_id i) ps
          (List.range' h.pages.length ps.length) ∧
      (h.append_all ps).2 = List.range' h.pages.length ps.length := by
  induction ps with
  | nil => intro h; simp [HeapFile.append_all, List.range']
  | cons p ps ih =>
    intro h
    simp only [HeapFile.append_all, HeapFile.append_page]
    obtain ⟨ih1, ih2⟩ := ih ⟨h.pages ++ [p.set_page_id h.num_pages]⟩
    dsimp only at ih1 ih2 ⊢
    rw [List.length_cons, List.range'_succ, List.zipWith_cons_cons]
    have hlen : (h.pages ++ [p.set_page_id h.num_pages]).length = h.pages.length + 1 := by
      simp
    constructor
    · rw [ih1, hlen]
      show h.pages ++ [p.set_page_id h.num_pages] ++ _ = _
      rw [List.append_assoc, List.singleton_append]
      show _ = h.pages ++ (p.set_page_id h.pages.length :: _)
      rw [show h.num_pages = h.pages.length from rfl]
    · rw [ih2, hlen]
      rw [show h.num_pages = h.pages.length from rfl]

theorem read_page_of_getElem (h : HeapFile) (i : Nat) (p : Page) (hi : i < h.pages.length)
    (hp : h.pages[i] = p) (hm : p.magic = PAGE_MAGIC) :
    h.read_page i = .ok p := by
  unfold HeapFile.read_page
  rw [dif_pos hi]
  have hg : h.pages.get ⟨i, hi⟩ = p := by rw [List.get_eq_getElem, hp]
  rw [hg]
  dsimp only
  rw [hm, if_pos rfl]

theorem read_page_oob (h : HeapFile) (i : Nat) (hi : ¬ i < h.pages.length) :
    h.read_page i = .error (.pageOutOfRange i) := by
  unfold HeapFile.read_page
  rw [dif_neg hi]

/-- C8: appending pages P0..Pn to a fresh heap file returns ids 0..n in
order; after reopening, read_page i succeeds for every i and yields the
stored copy of Pi, whose page_id field is i and whose slot contents are
those of Pi; and read_page fails with PageOutOfRange exactly for
id >= num_pages.  Hypotheses are the spec's own page invariants: valid
magic (invariant 1), directory inside the page and slot offsets at or above
the header (invariant 3), and fewer than 2^32 pages (PageId is u32). -/
theorem C8_heap_roundtrip (ps : List Page)
    (hmagic : ∀ p ∈ ps, p.magic = PAGE_MAGIC)
    (hdir : ∀ p ∈ ps, HEADER_LEN + p.n_slots * SLOT_SIZE ≤ PAGE_SIZE)
    (hoff : ∀ p ∈ ps, ∀ i < p.n_slots, HEADER_LEN ≤ p.slot_offset i)
    (hsz : ps.length < 2 ^ 32) :
    (HeapFile.create.append_all ps).2 = List.range ps.length ∧
      (∀ i (hi : i < ps.length),
        (HeapFile.create.append_all ps).1.reopen.read_page i =
            .ok ((ps.get ⟨i, hi⟩).set_page_id i) ∧
          ((ps.get ⟨i, hi⟩).set_page_id i).page_id = i ∧
          ∀ j, ((ps.get ⟨i, hi⟩).set_page_id i).get_slot j =
            (ps.get ⟨i, hi⟩).get_slot j) ∧
      ∀ id, ((HeapFile.create.append_all ps).1.reopen.read_page id =
          .error (.pageOutOfRange id)) ↔ ps.length ≤ id := by
  obtain ⟨hp, hids⟩ := append_all_pages ps HeapFile.create
  rw [show HeapFile.create.pages = ([] : List Page) from rfl] at hp hids
  rw [List.nil_append, show ([] : List Page).length = 0 from rfl] at hp
  rw [show ([] : List Page).length = 0 from rfl] at hids
  have hrlen : (List.range' 0 ps.length).length = ps.length := by
    simp [List.length_range']
  have hlenL : (HeapFile.create.append_all ps).1.reopen.pages.length = ps.length := by
    show (HeapFile.create.append_all ps).1.pages.length = ps.length
    rw [hp, List.length_zipWith, hrlen, Nat.min_self]
  have hgetL : ∀ i (hi : i < ps.length)
      (hL : i < (HeapFile.create.append_all ps).1.reopen.pages.length),
      (HeapFile.create.append_all ps).1.reopen.pages[i] =
        (ps.get ⟨i, hi⟩).set_page_id i := by
    intro i hi hL
    have hL2 : i < (HeapFile.create.append_all ps).1.pages.length := hL
    have hzl : i < (List.zipWith (fun p k => p.set_page_id k)
        ps (List.range' 0 ps.length)).length := by
      rw [List.length_zipWith, hrlen, Nat.min_self]
      exact hi
    show (HeapFile.create.append_all ps).1.pages[i] = _
    have h1 : (HeapFile.create.append_all ps).1.pages[i] =
        (List.zipWith (fun p k => p.set_page_id k) ps (List.range' 0 ps.length))[i] := by
      congr 1
    rw [h1, List.getElem_zipWith, List.getElem_range', List.get_eq_getElem]
    congr 1
    omega
  refine ⟨?_, fun i hi => ?_, fun id => ?_⟩
  · rw [hids, List.range_eq_range']
  · have hmem : ps.get ⟨i, hi⟩ ∈ ps := List.get_mem ps i hi
    refine ⟨?_, ?_, fun j => ?_⟩
    · exact read_page_of_getElem _ i _ (by omega) (hgetL i hi (by omega))
        ((Page.magic_set_page_id _ _).trans (hmagic _ hmem))
    · rw [Page.page_id_set_page_id]
      omega
    · exact get_slot_set_page_id _ i j (hdir _ hmem) (hoff _ hmem)
  · constructor
    · intro herr
      by_contra hlt
      have hok := read_page_of_getElem ((HeapFile.create.append_all ps).1.reopen) id _
        (by omega) (hgetL id (by omega) (by omega))
        ((Page.magic_set_page_id _ _).trans (hmagic _ (List.get_mem ps id (by omega))))
      rw [hok] at herr
      exact Except.noConfusion herr
    · intro hge
      exact read_page_oob _ id (by omega)

/-- Witness for C8: two concrete pages (a heap page holding one row, and a
fresh leaf page) appended to a fresh file get ids [0, 1]; after reopen,
page 0 reads back as the stored copy of the first page with page_id 0 and
identical slot contents, and reading page 5 fails with PageOutOfRange. -/
theorem C8_witness :
    (HeapFile.create.append_all [pageA, pageB]).2 = List.range 2 ∧
      (HeapFile.create.append_all [pageA, pageB]).1.reopen.read_page 0 =
        .ok (pageA.set_page_id 0) ∧
      (pageA.set_page_id 0).page_id = 0 ∧
      (pageA.set_page_id 0).get_slot 0 = pageA.get_slot 0 ∧
      (HeapFile.create.append_all [pageA, pageB]).1.reopen.read_page 5 =
        .error (.pageOutOfRange 5) := by
  obtain ⟨h1, h2, h3⟩ :=
    C8_heap_roundtrip [pageA, pageB] (by decide) (by decide) (by decide) (by decide)
  obtain ⟨h21, h22, h23⟩ := h2 0 (by decide)
  exact ⟨h1, h21, h22, h23 0, (h3 5).mpr (by decide)⟩

theorem take_append_len (xs ys : List Nat) (k : Nat) (h : xs.length = k) :
    (xs ++ ys).take k = xs := by
  subst h
  exact List.take_left xs ys

theorem drop_append_len (xs ys : List Nat) (k : Nat) (h : xs.length = k) :
    (xs ++ ys).drop k = ys := by
  subst h
  exact List.drop_left xs ys

theorem readExact_append (xs ys : List Nat) (k : Nat) (h : xs.length = k) :
    readExact (xs ++ ys) k = .ok (xs, ys) := by
  unfold readExact
  rw [if_pos (by rw [List.length_append]; omega),
    take_append_len xs ys k h, drop_append_len xs ys k h]

theorem readExact_zero (bs : List Nat) : readExact bs 0 = .ok ([], bs) := by
  unfold readExact
  rw [if_pos (Nat.zero_le _)]
  rfl

theorem natToInt64_int64ToNat (n : Int) (h1 : -(2 ^ 63 : Int) ≤ n) (h2 : n < 2 ^ 63) :
    natToInt64 (int64ToNat n) = n := by
  unfold natToInt64 int64ToNat
  omega

theorem int64ToNat_lt (n : Int) : int64ToNat n < 2 ^ 64 := by
  unfold int64ToNat
  omega

theorem decode_value_int (n : Int) (rest : List Nat)
    (h1 : -(2 ^ 63 : Int) ≤ n) (h2 : n < 2 ^ 63) :
    decode_value .int (toLE 8 (int64ToNat n) ++ rest) = .ok (.int n, rest) := by
  unfold decode_value
  rw [readExact_append _ _ 8 (toLE_length 8 _)]
  dsimp only
  rw [fromLE_toLE]
  rw [Nat.mod_eq_of_lt (by
    have h3 : (256 : Nat) ^ 8 = 2 ^ 64 := by norm_num
    have h4 := int64ToNat_lt n
    omega)]
  rw [natToInt64_int64ToNat n h1 h2]

theorem decode_value_text (s rest : List Nat) (hlen : s.length < 2 ^ 32)
    (hval : isValidUtf8 s = true) :
    decode_value .text (toLE 4 s.length ++ (s ++ rest)) = .ok (.text s, rest) := by
  unfold decode_value
  rw [readExact_append _ _ 4 (toLE_length 4 _)]
  dsimp only
  rw [fromLE_toLE]
  rw [Nat.mod_eq_of_lt (by
    have h3 : (256 : Nat) ^ 4 = 2 ^ 32 := by norm_num
    omega)]
  rw [readExact_append s rest s.length rfl]
  dsimp only
  rw [hval]
  rw [if_pos rfl]

theorem decode_value_bool (b : Bool) (rest : List Nat) :
    decode_value .bool ([if b then 1 else 0] ++ rest) = .ok (.bool b, rest) := by
  unfold decode_value
  rw [readExact_append _ _ 1 (by cases b <;> rfl)]
  cases b <;> rfl

theorem conforms_length : ∀ (schema : List ColumnType) (vs : List Value),
    conforms schema vs → schema.length = vs.length
  | [], [], _ => rfl
  | [], _ :: _, hc => hc.elim
  | .int :: _, [], hc => hc.elim
  | .text :: _, [], hc => hc.elim
  | .bool :: _, [], hc => hc.elim
  | .int :: tys, .int _ :: vs, hc => congrArg (· + 1) (conforms_length tys vs hc)
  | .text :: tys, .text _ :: vs, hc => congrArg (· + 1) (conforms_length tys vs hc)
  | .bool :: tys, .bool _ :: vs, hc => congrArg (· + 1) (conforms_length tys vs hc)
  | .int :: _, .text _ :: _, hc => hc.elim
  | .int :: _, .bool _ :: _, hc => hc.elim
  | .text :: _, .int _ :: _, hc => hc.elim
  | .text :: _, .bool _ :: _, hc => hc.elim
  | .bool :: _, .int _ :: _, hc => hc.elim
  | .bool :: _, .text _ :: _, hc => hc.elim

theorem cols_roundtrip : ∀ (schema : List ColumnType) (vs : List Value),
    conforms schema vs → (∀ v ∈ vs, ValueWF v) → (∀ v ∈ vs, textLenOK v) →
    ∃ body, encodeCols schema vs = .ok body ∧
      ∀ rest, decodeCols schema (body ++ rest) = .ok (vs, rest) := by
  intro schema
  induction schema with
  | nil =>
    intro vs hc _ _
    cases vs with
    | nil => exact ⟨[], rfl, fun rest => by rw [List.nil_append]; rfl⟩
    | cons v vs => exact hc.elim
  | cons ty tys ih =>
    intro vs hc hwf hlen
    cases vs with
    | nil => cases ty <;> exact hc.elim
    | cons v vs' =>
      have hwf' : ∀ w ∈ vs', ValueWF w := fun w hw => hwf w (List.mem_cons_of_mem v hw)
      have hlen' : ∀ w ∈ vs', textLenOK w := fun w hw => hlen w (List.mem_cons_of_mem v hw)
      have hwfv : ValueWF v := hwf v (List.mem_cons_self v vs')
      have hlenv : textLenOK v := hlen v (List.mem_cons_self v vs')
      cases ty <;> cases v <;> first
        | exact hc.elim
        | skip
      case int.int n =>
        obtain ⟨body, he, hd⟩ := ih vs' hc hwf' hlen'
        refine ⟨toLE 8 (int64ToNat n) ++ body, ?_, fun rest => ?_⟩
        · simp only [encodeCols, encode_value, he]
        · simp only [decodeCols, List.append_assoc]
          rw [decode_value_int n (body ++ rest) hwfv.1 hwfv.2]
          dsimp only
          rw [hd rest]
      case text.text s =>
        obtain ⟨body, he, hd⟩ := ih vs' hc hwf' hlen'
        refine ⟨(toLE 4 s.length ++ s) ++ body, ?_, fun rest => ?_⟩
        · simp only [encodeCols, encode_value, he]
        · simp only [decodeCols, List.append_assoc]
          rw [decode_value_text s (body ++ rest) hlenv hwfv.2]
          dsimp only
          rw [hd rest]
      case bool.bool b =>
        obtain ⟨body, he, hd⟩ := ih vs' hc hwf' hlen'
        refine ⟨[if b then 1 else 0] ++ body, ?_, fun rest => ?_⟩
        · simp only [encodeCols, encode_value, he]
        · simp only [decodeCols, List.append_assoc]
          rw [decode_value_bool b (body ++ rest)]
          dsimp only
          rw [hd rest]

/-- C4 amended: the row codec round-trips for every conforming value
sequence whose Text payloads are shorter than 2^32 bytes (the length prefix
is written with `as u32` and silently truncates above that; see the
counterexample), with the Rust type invariants made explicit: i64 values in
two's-complement range, Strings valid UTF-8, txn_id a u64, tombstone a u8. -/
theorem C4_row_roundtrip_amended (schema : List ColumnType) (vs : List Value)
    (txn tomb : Nat) (hc : conforms schema vs) (hwf : ∀ v ∈ vs, ValueWF v)
    (hlen : ∀ v ∈ vs, textLenOK v) (htxn : txn < 2 ^ 64) (htomb : tomb < 256) :
    ∃ bs, encode schema vs txn tomb = .ok bs ∧
      decode schema bs = .ok (txn, tomb, vs) := by
  obtain ⟨body, he, hd⟩ := cols_roundtrip schema vs hc hwf hlen
  refine ⟨toLE 8 txn ++ [tomb % 256] ++ body, ?_, ?_⟩
  · unfold encode
    rw [if_pos (conforms_length schema vs hc), he]
  · unfold decode
    rw [if_neg (by
      rw [List.length_append, List.length_append, toLE_length]
      unfold ROW_HEADER_LEN
      simp only [List.length_singleton]
      omega)]
    have hr1 : readExact (toLE 8 txn ++ [tomb % 256] ++ body) 8 =
        .ok (toLE 8 txn, [tomb % 256] ++ body) :=
      readExact_append _ _ 8 (toLE_length 8 txn)
    have hr2 : readExact ([tomb % 256] ++ body) 1 = .ok ([tomb % 256], body) :=
      readExact_append [tomb % 256] body 1 rfl
    have hd0 := hd []
    rw [List.append_nil] at hd0
    simp only [hr1, hr2, hd0]
    rw [fromLE_toLE, Nat.mod_eq_of_lt (by norm_num; omega)]
    rw [show ([tomb % 256].getD 0 0) = tomb % 256 from rfl, Nat.mod_eq_of_lt htomb]

/-- Witness for C4: scenario S1, schema [Int, Text, Bool] with values
(42, "hello", true), txn_id 1, tombstone 0. -/
theorem C4_witness :
    conforms [.int, .text, .bool]
        [.int 42, .text [104, 101, 108, 108, 111], .bool true] ∧
      ∃ bs, encode [.int, .text, .bool]
          [.int 42, .text [104, 101, 108, 108, 111], .bool true] 1 0 = .ok bs ∧
        decode [.int, .text, .bool] bs =
          .ok (1, 0, [.int 42, .text [104, 101, 108, 108, 111], .bool true]) :=
  ⟨by decide,
    C4_row_roundtrip_amended [.int, .text, .bool]
      [.int 42, .text [104, 101, 108, 108, 111], .bool true] 1 0
      (by decide) (by decide) (by decide) (by decide) (by decide)⟩

theorem bigText_length : bigText.length = 2 ^ 32 := by
  unfold bigText
  exact List.length_replicate (2 ^ 32) 97

theorem isValidUtf8_replicate_a : ∀ n, isValidUtf8 (List.replicate n 97) = true := by
  intro n
  induction n with
  | zero => rfl
  | succ m ih =>
    rw [List.replicate_succ]
    exact ih

/-- Step equation for `decode_value` on a Text column, phrased over the
outcomes of the two `read_exact` calls. -/
theorem dv_text_step (bs lenB rest s rest2 : List Nat)
    (h1 : readExact bs 4 = .ok (lenB, rest))
    (h2 : readExact rest (fromLE lenB) = .ok (s, rest2))
    (h3 : isValidUtf8 s = true) :
    decode_value .text bs = .ok (.text s, rest2) := by
  unfold decode_value
  dsimp only
  rw [h1]
  dsimp only
  rw [h2]
  dsimp only
  rw [if_pos h3]

/-- `decodeCols` on the empty schema consumes nothing. -/
theorem decodeCols_nil (bs : List Nat) : decodeCols [] bs = .ok ([], bs) := rfl

/-- `decodeCols` on a one-column schema is a single `decode_value`. -/
theorem decodeCols_one (ty : ColumnType) (bs : List Nat) (v : Value) (rest : List Nat)
    (h : decode_value ty bs = .ok (v, rest)) :
    decodeCols [ty] bs = .ok ([v], rest) := by
  unfold decodeCols
  rw [h]
  dsimp only
  rw [decodeCols_nil]

/-- Step equation for `decode`, phrased over the outcomes of the header
reads and the column loop. -/
theorem decode_step (schema : List ColumnType) (bs txnB r1 tombB r2 rest : List Nat)
    (vs : List Value)
    (hlen : ¬(bs.length < ROW_HEADER_LEN))
    (h1 : readExact bs 8 = .ok (txnB, r1))
    (h2 : readExact r1 1 = .ok (tombB, r2))
    (h3 : decodeCols schema r2 = .ok (vs, rest)) :
    decode schema bs = .ok (fromLE txnB, tombB.getD 0 0, vs) := by
  unfold decode
  rw [if_neg hlen, h1]
  dsimp only
  rw [h2]
  dsimp only
  rw [h3]

/-- Counterexample to C4 as stated: the claim quantifies over every
conforming value sequence, but a Text value of 2^32 bytes (a legal Rust
String, here 'a' repeated, valid UTF-8) breaks the round-trip: encode
writes the length prefix with `(b.len() as u32)`, which truncates 2^32 to
0, so decode reads a zero-length string back and returns Text "" instead
of the original value. -/
theorem C4_u32_truncation_counterex :
    conforms [.text] [.text bigText] ∧ isValidUtf8 bigText = true ∧
      encode [.text] [.text bigText] 0 0 =
        .ok ([0, 0, 0, 0, 0, 0, 0, 0] ++ ([0] ++ ([0, 0, 0, 0] ++ bigText))) ∧
      decode [.text] ([0, 0, 0, 0, 0, 0, 0, 0] ++ ([0] ++ ([0, 0, 0, 0] ++ bigText))) =
        .ok (0, 0, [.text []]) ∧
      Value.text [] ≠ Value.text bigText := by
  refine ⟨trivial, ?_, ?_, ?_, ?_⟩
  · show isValidUtf8 (List.replicate (2 ^ 32) 97) = true
    exact isValidUtf8_replicate_a (2 ^ 32)
  · have hev : encode_value .text (.text bigText) = .ok ([0, 0, 0, 0] ++ bigText) := by
      simp only [encode_value]
      rw [bigText_length, show toLE 4 (2 ^ 32) = [0, 0, 0, 0] from by decide]
    have hcols : encodeCols [.text] [.text bigText] = .ok (([0, 0, 0, 0] ++ bigText) ++ []) := by
      simp only [encodeCols, hev]
    unfold encode
    rw [if_pos (show ([ColumnType.text] : List ColumnType).length =
      ([Value.text bigText] : List Value).length from rfl)]
    rw [hcols, List.append_nil]
    rw [show toLE 8 0 = [0, 0, 0, 0, 0, 0, 0, 0] from by decide,
      show (0 : Nat) % 256 = 0 from rfl]
    rfl
  · have hlen : ¬((([0, 0, 0, 0, 0, 0, 0, 0] ++ ([0] ++ ([0, 0, 0, 0] ++ bigText))
        : List Nat)).length < ROW_HEADER_LEN) := by
      rw [List.length_append, List.length_append, List.length_append, bigText_length]
      unfold ROW_HEADER_LEN
      omega
    have hr1 : readExact
        (([0, 0, 0, 0, 0, 0, 0, 0] : List Nat) ++ ([0] ++ ([0, 0, 0, 0] ++ bigText))) 8 =
        .ok ([0, 0, 0, 0, 0, 0, 0, 0], [0] ++ ([0, 0, 0, 0] ++ bigText)) :=
      readExact_append _ _ 8 rfl
    have hr2 : readExact (([0] : List Nat) ++ ([0, 0, 0, 0] ++ bigText)) 1 =
        .ok ([0], [0, 0, 0, 0] ++ bigText) :=
      readExact_append _ _ 1 rfl
    have hr3 : readExact (([0, 0, 0, 0] : List Nat) ++ bigText) 4 =
        .ok ([0, 0, 0, 0], bigText) :=
      readExact_append _ _ 4 rfl
    have hr4 : readExact bigText (fromLE [0, 0, 0, 0]) = .ok ([], bigText) := by
      rw [show fromLE [0, 0, 0, 0] = 0 from rfl]
      exact readExact_zero bigText
    have hdv : decode_value .text (([0, 0, 0, 0] : List Nat) ++ bigText) =
        .ok (.text [], bigText) :=
      dv_text_step _ _ _ _ _ hr3 hr4 rfl
    have hcols2 : decodeCols [.text] (([0, 0, 0, 0] : List Nat) ++ bigText) =
        .ok ([.text []], bigText) :=
      decodeCols_one _ _ _ _ hdv
    have hdec := decode_step [.text]
      ([0, 0, 0, 0, 0, 0, 0, 0] ++ ([0] ++ ([0, 0, 0, 0] ++ bigText)))
      [0, 0, 0, 0, 0, 0, 0, 0] ([0] ++ ([0, 0, 0, 0] ++ bigText))
      [0] ([0, 0, 0, 0] ++ bigText) bigText [.text []] hlen hr1 hr2 hcols2
    rw [hdec]
    rfl
  · intro h
    have h1 : ([] : List Nat) = bigText := Value.text.inj h
    have h2 := congrArg List.length h1
    rw [bigText_length] at h2
    exact absurd h2.symm (by norm_num)
